import Mathlib

/-!
# Verification of the `@st-lib/parallel` concurrency-limited scheduler

Shallow embedding of the two source variants of the library:

* `src/src/index.ts` — the array-backed variant (`runDependently`,
  `runIndependently` over `readonly T[]`);
* `src/unnamed/part_000` — the iterator-backed variant (same entry points
  over an `Iterable`, with a one-item lookahead pull).

Both variants share a pool engine: a synchronous pre-fill wave of `put`
calls admitting up to `threads` tasks, then a settle-and-replenish loop
(`Promise.race(tasks).then(next)`), and a drain (`Promise.all(tasks)`) once
the stop condition holds.  The engine here is modelled as a deterministic
interpreter parameterised by a schedule `σ : Nat → Nat` that picks, at each
settlement boundary, which of the in-flight tasks settles (the boundary
processes one settlement, as when each task settles in its own microtask
batch).  The work function is modelled by its behaviour per item:
it either returns a promise that fulfils (`CbRes.ok`), returns a promise
that rejects (`CbRes.err`), or throws synchronously when called
(`CbRes.thr`) — the last one matters because the source calls
`cb(...)` directly inside `put` with no try/catch around it.

A run's outer promise is modelled as `Option (Except E out)`:
`none` means the promise never settles (e.g. `Promise.race([])` on an empty
source), `some (.error e)` a rejection, `some (.ok v)` a resolution.
Runs also expose the event trace (admissions and settlements) so that
scheduling invariants (window bound, admission cut-off on cancellation)
can be stated.
-/

/-- Behaviour of one work-function call: the returned promise fulfils with
`r`, rejects with `e`, or the call itself throws `e` synchronously. -/
inductive CbRes (R E : Type) : Type where
  | ok (r : R)
  | err (e : E)
  | thr (e : E)
deriving DecidableEq, Repr

/-- Whether a behaviour is a synchronous throw. -/
def CbRes.isThr {R E : Type} : CbRes R E → Bool
  | .thr _ => true
  | _ => false

/-- Whether a behaviour is an asynchronous rejection. -/
def CbRes.isErr {R E : Type} : CbRes R E → Bool
  | .err _ => true
  | _ => false

/-- The settlement outcome of a task admitted for a behaviour (a `thr`
behaviour never produces a task, but `toOutcome` is total for convenience). -/
def toOutcome {R E : Type} : CbRes R E → Except E R
  | .ok r => .ok r
  | .err e => .error e
  | .thr e => .error e

instance {E R : Type} [DecidableEq E] [DecidableEq R] : DecidableEq (Except E R) :=
  fun x y =>
  match x, y with
  | .error a, .error b =>
      if h : a = b then isTrue (by rw [h]) else isFalse (by simp [h])
  | .ok a, .ok b =>
      if h : a = b then isTrue (by rw [h]) else isFalse (by simp [h])
  | .error _, .ok _ => isFalse (by simp)
  | .ok _, .error _ => isFalse (by simp)

/-- Scheduler events: `start i` records the admission of the `WorkItem` of
index `i` as a task (the source's `put`), `settle i o` records its
settlement with outcome `o`. -/
inductive Ev (R E : Type) : Type where
  | start (i : Nat)
  | settle (i : Nat) (o : Except E R)
deriving DecidableEq, Repr

/-- Number of admission events in a trace. -/
def cntA {R E : Type} : List (Ev R E) → Nat
  | [] => 0
  | .start _ :: tr => cntA tr + 1
  | .settle _ _ :: tr => cntA tr

/-- Number of settlement events in a trace. -/
def cntS {R E : Type} : List (Ev R E) → Nat
  | [] => 0
  | .start _ :: tr => cntS tr
  | .settle _ _ :: tr => cntS tr + 1

/-- Running in-flight count after a trace, starting from `k` tasks in flight. -/
def netK {R E : Type} : Nat → List (Ev R E) → Nat
  | k, [] => k
  | k, .start _ :: tr => netK (k + 1) tr
  | k, .settle _ _ :: tr => netK (k - 1) tr

/-- `flightBounded W k tr` checks that, starting from `k` tasks in flight,
the number of in-flight tasks never exceeds `W` at any instant of `tr`. -/
def flightBounded {R E : Type} (W : Nat) : Nat → List (Ev R E) → Bool
  | _, [] => true
  | k, .start _ :: tr => decide (k + 1 ≤ W) && flightBounded W (k + 1) tr
  | k, .settle _ _ :: tr => flightBounded W (k - 1) tr

/-- The error of the first settlement that failed, if any. -/
def firstErr {R E : Type} : List (Ev R E) → Option E
  | [] => none
  | .settle _ (.error e) :: _ => some e
  | .start _ :: tr => firstErr tr
  | .settle _ (.ok _) :: tr => firstErr tr

/-- Indices of the admitted work items, in admission order. -/
def startsOf {R E : Type} : List (Ev R E) → List Nat
  | [] => []
  | .start i :: tr => i :: startsOf tr
  | .settle _ _ :: tr => startsOf tr

/-- The settlements of a trace, in settlement order. -/
def settlesOf {R E : Type} : List (Ev R E) → List (Nat × Except E R)
  | [] => []
  | .start _ :: tr => settlesOf tr
  | .settle i o :: tr => (i, o) :: settlesOf tr

/-- The failed settlements of a trace, in settlement order (this is the
insertion order into the `errors` record). -/
def errsOf {R E : Type} : List (Ev R E) → List (Nat × E)
  | [] => []
  | .start _ :: tr => errsOf tr
  | .settle _ (.ok _) :: tr => errsOf tr
  | .settle i (.error e) :: tr => (i, e) :: errsOf tr

/-- `noStartAfter k tr` checks that no admission event occurs once `k`
settlements have happened (`k` counts the settlements still allowed to
precede an admission). -/
def noStartAfter {R E : Type} : Nat → List (Ev R E) → Bool
  | _, [] => true
  | k, .start _ :: tr => decide (0 < k) && noStartAfter k tr
  | k, .settle _ _ :: tr => noStartAfter (k - 1) tr

/-- Outcome-policy plugged into the pool engine.  `foldOk`/`foldErr` fold a
settlement into the result accumulator (the promise chain's `.then`/`.catch`
handlers), `stopErr` is the policy's contribution to the stop condition
(`throwed` for FailFast, constantly false for CollectAll), and `putAcc`
is what `put` does to the accumulator at admission time (the iterator
variant grows the output arrays to `index + 1` there). -/
structure Policy (R E A : Type) where
  foldOk : A → Nat → R → A
  foldErr : A → Nat → E → A
  stopErr : A → Bool
  putAcc : A → Nat → A

/-- Engine state common to all four entry points: the in-flight tasks with
their (predetermined) outcomes, `currentIndex`, `readyCount`, the result
accumulator, and the event trace. -/
structure EngSt (R E A : Type) where
  active : List (Nat × Except E R)
  cur : Nat
  ready : Nat
  acc : A
  trace : List (Ev R E)
deriving DecidableEq, Repr

/-- The initial engine state for an accumulator `a`. -/
def engSt0 {R E A : Type} (a : A) : EngSt R E A :=
  { active := [], cur := 0, ready := 0, acc := a, trace := [] }

/-- One settlement: the task at position `j` of the `tasks` array settles.
Its chain folds the outcome into the accumulator (`.then`/`.catch`),
increments `readyCount` (`.finally`), and `dequeue` removes it from
`tasks`; then the raced continuation runs. -/
def engSettle {R E A : Type} (P : Policy R E A) (st : EngSt R E A) (j : Nat) :
    EngSt R E A :=
  match st.active[j]? with
  | none => st
  | some (i, .ok r) =>
      { st with
        active := st.active.eraseIdx j
        ready := st.ready + 1
        acc := P.foldOk st.acc i r
        trace := st.trace ++ [.settle i (.ok r)] }
  | some (i, .error e) =>
      { st with
        active := st.active.eraseIdx j
        ready := st.ready + 1
        acc := P.foldErr st.acc i e
        trace := st.trace ++ [.settle i (.error e)] }

/-- The source's `put`: admit the work item of index `currentIndex` with
settlement outcome `o`, then increment `currentIndex`. -/
def engPut {R E A : Type} (P : Policy R E A) (st : EngSt R E A) (o : Except E R) :
    EngSt R E A :=
  { st with
    active := st.active ++ [(st.cur, o)]
    cur := st.cur + 1
    acc := P.putAcc st.acc (st.cur + 1)
    trace := st.trace ++ [.start st.cur] }

/-- `await Promise.all(tasks)`: settle the remaining in-flight tasks in
schedule order.  The fuel is instantiated with `st.active.length`, which
drains exactly to empty. -/
def engDrain {R E A : Type} (P : Policy R E A) (σ : Nat → Nat) :
    Nat → Nat → EngSt R E A → EngSt R E A
  | 0, _, st => st
  | n + 1, t, st =>
      if st.active.isEmpty then st
      else engDrain P σ n (t + 1) (engSettle P st (σ t % st.active.length))

/-- The array variant's synchronous pre-fill:
`while (currentIndex < threads && currentIndex < array.length) put()`.
The argument list holds the behaviours of the indices still to admit
(the caller passes `bs.take (min threads array.length)`).  A synchronous
throw aborts the `Promise` executor: the thrown error is returned and no
further admission happens. -/
def engPrefill {R E A : Type} (P : Policy R E A) :
    List (CbRes R E) → EngSt R E A → EngSt R E A × Option E
  | [], st => (st, none)
  | .thr e :: _, st => (st, some e)
  | .ok r :: rest, st => engPrefill P rest (engPut P st (.ok r))
  | .err e :: rest, st => engPrefill P rest (engPut P st (.error e))

/-- The array variant's settle-and-replenish loop
(`Promise.race(tasks).then(async function next() {...})`).

`rem` is the list of behaviours not yet admitted (`bs.drop currentIndex`),
so `rem = []` models the stop test `array.length <= currentIndex`.
The result flag is `true` when `res(...)` was reached and `false` when the
outer promise is never resolved by the loop: either `tasks` was empty (the
race never fires), or `put` threw synchronously inside `next` (the
rejection of `next`'s own promise is unhandled; the remaining tasks still
settle, which is modelled by the drain in that branch). -/
def engLoop {R E A : Type} (P : Policy R E A) (canceled : Nat → Bool)
    (σ : Nat → Nat) :
    List (CbRes R E) → Nat → EngSt R E A → Bool × EngSt R E A
  | rem, t, st =>
    if st.active.isEmpty then (false, st)
    else
      let st1 := engSettle P st (σ t % st.active.length)
      match rem with
      | [] => (true, engDrain P σ st1.active.length (t + 1) st1)
      | b :: rem' =>
        if canceled st1.ready || P.stopErr st1.acc then
          (true, engDrain P σ st1.active.length (t + 1) st1)
        else
          match b with
          | .thr _ => (false, engDrain P σ st1.active.length (t + 1) st1)
          | .ok r => engLoop P canceled σ rem' (t + 1) (engPut P st1 (.ok r))
          | .err e => engLoop P canceled σ rem' (t + 1) (engPut P st1 (.error e))

/-- The iterator variant's pre-fill:
`for (let it = iter.next(); currentIndex < threads && !it.done; it = iter.next())`.
`rem` is the unconsumed suffix of the source and `pos` counts consumed
elements.  Note the loop's update clause pulls an element before the
condition is re-checked, so when the loop stops at the window bound the
element just pulled is discarded. -/
def engPrefillIter {α R E A : Type} (P : Policy R E A) (cb : α → Nat → CbRes R E)
    (W : Nat) :
    List α → Nat → EngSt R E A → List α × Nat × EngSt R E A × Option E
  | [], pos, st => ([], pos, st, none)
  | a :: rem', pos, st =>
    if st.cur < W then
      match cb a st.cur with
      | .thr e => (rem', pos + 1, st, some e)
      | .ok r => engPrefillIter P cb W rem' (pos + 1) (engPut P st (.ok r))
      | .err e => engPrefillIter P cb W rem' (pos + 1) (engPut P st (.error e))
    else (rem', pos + 1, st, none)

/-- The iterator variant's loop: `next` begins with `const it = iter.next()`
— the pull happens before the stop condition is evaluated.  The first
result component is `none` when the outer promise never settles, and
`some c` when the loop finalised, `c` recording whether `isCanceled()`
returned true at the stopping boundary. -/
def engLoopIter {α R E A : Type} (P : Policy R E A) (cb : α → Nat → CbRes R E)
    (canceled : Nat → Bool) (σ : Nat → Nat) :
    List α → Nat → Nat → EngSt R E A → Option Bool × List α × Nat × EngSt R E A
  | rem, pos, t, st =>
    if st.active.isEmpty then (none, rem, pos, st)
    else
      let st1 := engSettle P st (σ t % st.active.length)
      match rem with
      | [] =>
        (some (canceled st1.ready), [], pos,
          engDrain P σ st1.active.length (t + 1) st1)
      | a :: rem' =>
        if canceled st1.ready || P.stopErr st1.acc then
          (some (canceled st1.ready), rem', pos + 1,
            engDrain P σ st1.active.length (t + 1) st1)
        else
          match cb a st1.cur with
          | .thr _ =>
            (none, rem', pos + 1, engDrain P σ st1.active.length (t + 1) st1)
          | .ok r =>
            engLoopIter P cb canceled σ rem' (pos + 1) (t + 1)
              (engPut P st1 (.ok r))
          | .err e =>
            engLoopIter P cb canceled σ rem' (pos + 1) (t + 1)
              (engPut P st1 (.error e))

/-- FailFast accumulator: the `out` array and the argument of the first
`reject(error)` call (`rejected.isSome` is the `throwed` flag). -/
structure DepAcc (R E : Type) where
  out : List (Option R)
  rejected : Option E
deriving DecidableEq, Repr

/-- CollectAll accumulator: the `Independent<R>` bundle under construction.
`errors` is the `Record<number, any>` as an association list in insertion
order. -/
structure IndepAcc (R E : Type) where
  results : List (Option (Except E R))
  values : List (Option R)
  errors : List (Nat × E)
  ok : Bool
deriving DecidableEq, Repr

/-- `out.length = Math.max(out.length, n)` on a Lean list of optional cells. -/
def padList {β : Type} (l : List (Option β)) (n : Nat) : List (Option β) :=
  l ++ List.replicate (n - l.length) none

/-- FailFast policy of the array variant: successes land in `out[index]`,
the first failure calls `reject`, and `put` leaves the (preallocated)
output untouched. -/
def depPolicy (R E : Type) : Policy R E (DepAcc R E) where
  foldOk a i r := { a with out := a.out.set i (some r) }
  foldErr a _ e :=
    { a with rejected := match a.rejected with
                         | some e0 => some e0
                         | none => some e }
  stopErr a := a.rejected.isSome
  putAcc a _ := a

/-- FailFast policy of the iterator variant: same folds, but `put` grows
`out` to `index + 1` cells. -/
def depIterPolicy (R E : Type) : Policy R E (DepAcc R E) :=
  { depPolicy R E with putAcc := fun a n => { a with out := padList a.out n } }

/-- CollectAll policy of the array variant. -/
def indepPolicy (R E : Type) : Policy R E (IndepAcc R E) where
  foldOk a i r :=
    { a with
      values := a.values.set i (some r)
      results := a.results.set i (some (.ok r)) }
  foldErr a i e :=
    { a with
      ok := false
      errors := a.errors ++ [(i, e)]
      results := a.results.set i (some (.error e)) }
  stopErr _ := false
  putAcc a _ := a

/-- CollectAll policy of the iterator variant: `put` grows `values` and
`results` to `index + 1` cells. -/
def indepIterPolicy (R E : Type) : Policy R E (IndepAcc R E) :=
  { indepPolicy R E with
    putAcc := fun a n =>
      { a with values := padList a.values n, results := padList a.results n } }

/-- The behaviour of each task over an array source: task `i` runs
`cb(array[i], i, array)`. -/
def taskList {α R E : Type} (cb : α → Nat → CbRes R E) (arr : List α) :
    List (CbRes R E) :=
  arr.enum.map fun p => cb p.2 p.1

/-- `runDependently` of `src/src/index.ts` (array variant), given the
already-resolved window `W`, the cancellation predicate as a function of
`readyCount`, and a schedule.  Returns the outer promise's fate and the
final engine state. -/
def runDependently {α R E : Type} (arr : List α) (cb : α → Nat → CbRes R E)
    (canceled : Nat → Bool) (W : Nat) (σ : Nat → Nat) :
    Option (Except E (List (Option R))) × EngSt R E (DepAcc R E) :=
  let bs := taskList cb arr
  let pre := engPrefill (depPolicy R E)
    (bs.take (min W bs.length))
    (engSt0 { out := List.replicate bs.length none, rejected := none })
  match pre.2 with
  | some e => (some (.error e), pre.1)
  | none =>
    let r := engLoop (depPolicy R E) canceled σ (bs.drop (min W bs.length)) 0 pre.1
    match r.2.acc.rejected with
    | some e => (some (.error e), r.2)
    | none => (if r.1 then some (.ok r.2.acc.out) else none, r.2)

/-- `runIndependently` of `src/src/index.ts` (array variant).  The outer
promise still rejects if the work function throws synchronously during the
pre-fill (the executor throw), hence the `Except` in the result. -/
def runIndependently {α R E : Type} (arr : List α) (cb : α → Nat → CbRes R E)
    (canceled : Nat → Bool) (W : Nat) (σ : Nat → Nat) :
    Option (Except E (IndepAcc R E)) × EngSt R E (IndepAcc R E) :=
  let bs := taskList cb arr
  let pre := engPrefill (indepPolicy R E)
    (bs.take (min W bs.length))
    (engSt0
      { results := List.replicate bs.length none
        values := List.replicate bs.length none
        errors := []
        ok := true })
  match pre.2 with
  | some e => (some (.error e), pre.1)
  | none =>
    let r := engLoop (indepPolicy R E) canceled σ (bs.drop (min W bs.length)) 0 pre.1
    (if r.1 then some (.ok r.2.acc) else none, r.2)

/-- `runDependently` of `src/unnamed/part_000` (iterator variant).
`out` starts as `new Array(threads)`.  Also returns the loop exit flag
(`some c`: finalised, `c` = cancellation observed at the stop) and the
number of source elements consumed. -/
def runDependentlyIter {α R E : Type} (src : List α) (cb : α → Nat → CbRes R E)
    (canceled : Nat → Bool) (W : Nat) (σ : Nat → Nat) :
    Option (Except E (List (Option R))) × Option Bool × Nat × EngSt R E (DepAcc R E) :=
  match engPrefillIter (depIterPolicy R E) cb W src 0
      (engSt0 { out := List.replicate W none, rejected := none }) with
  | (_, pos, st, some e) => (some (.error e), none, pos, st)
  | (rem, pos, st, none) =>
    match engLoopIter (depIterPolicy R E) cb canceled σ rem pos 0 st with
    | (ex, _, pos1, fin) =>
      match fin.acc.rejected with
      | some e => (some (.error e), ex, pos1, fin)
      | none => (if ex.isSome then some (.ok fin.acc.out) else none, ex, pos1, fin)

/-- `runIndependently` of `src/unnamed/part_000` (iterator variant). -/
def runIndependentlyIter {α R E : Type} (src : List α) (cb : α → Nat → CbRes R E)
    (canceled : Nat → Bool) (W : Nat) (σ : Nat → Nat) :
    Option (Except E (IndepAcc R E)) × Option Bool × Nat × EngSt R E (IndepAcc R E) :=
  match engPrefillIter (indepIterPolicy R E) cb W src 0
      (engSt0
        { results := List.replicate W none
          values := List.replicate W none
          errors := []
          ok := true }) with
  | (_, pos, st, some e) => (some (.error e), none, pos, st)
  | (rem, pos, st, none) =>
    match engLoopIter (indepIterPolicy R E) cb canceled σ rem pos 0 st with
    | (ex, _, pos1, fin) =>
      (if ex.isSome then some (.ok fin.acc) else none, ex, pos1, fin)

/-- The caller-supplied options that matter to `getOptions`: `threads` is
`some t` when present and a number (the `isNumber` test of `@st-lib/is`). -/
structure OptionsIn where
  threads : Option Int
deriving DecidableEq, Repr

/-- The mutable module-level `config` object. -/
structure Config where
  defaultThreads : Int
deriving DecidableEq, Repr

/-- The initial `config` value (`defaultThreads: 4`). -/
def config0 : Config := { defaultThreads := 4 }

/-- The `threads` component of `getOptions`:
`options && isNumber(options.threads) ? Math.max(options.threads, 2) : config.defaultThreads`. -/
def getOptions (cfg : Config) (options : Option OptionsIn) : Int :=
  match options with
  | some o =>
    match o.threads with
    | some t => max t 2
    | none => cfg.defaultThreads
  | none => cfg.defaultThreads

/-- Left-biased choice on options (the semantics of a promise that can only
be rejected once: the first `reject` wins). -/
def optOr {β : Type} : Option β → Option β → Option β
  | some b, _ => some b
  | none, o => o

/-- Replay of a trace on the result accumulator: the accumulator of a run
is exactly the fold of its trace. -/
def accOf {R E A : Type} (P : Policy R E A) : A → List (Ev R E) → A
  | a, [] => a
  | a, .start i :: tr => accOf P (P.putAcc a (i + 1)) tr
  | a, .settle i (.ok r) :: tr => accOf P (P.foldOk a i r) tr
  | a, .settle i (.error e) :: tr => accOf P (P.foldErr a i e) tr

/-- Bookkeeping invariant of the pool engine, independent of the outcome
policy and of the sequence source: counting facts tying the trace to the
state, the window bound on the set of in-flight tasks, and the
admitted/settled accounting of indices. -/
structure CoreInv {R E A : Type} (W : Nat) (st : EngSt R E A) : Prop where
  count_eq : st.ready + st.active.length = st.cur
  cntA_eq : cntA st.trace = st.cur
  cntS_eq : cntS st.trace = st.ready
  netK_eq : netK 0 st.trace = st.active.length
  flight : flightBounded W 0 st.trace = true
  act_le : st.active.length ≤ W
  starts_eq : startsOf st.trace = List.range st.cur
  act_nodup : (st.active.map Prod.fst).Nodup
  act_lt : ∀ p ∈ st.active, p.1 < st.cur
  settled_lt : ∀ i o, Ev.settle i o ∈ st.trace → i < st.cur ∧ i ∉ st.active.map Prod.fst
  covered : ∀ i, i < st.cur → (∃ o, Ev.settle i o ∈ st.trace) ∨ i ∈ st.active.map Prod.fst

/-- Array-source invariant: every in-flight task and every settlement
carries the outcome dictated by the behaviour list `bs` at its index, and
none of them came from a synchronous throw. -/
structure MatchInv {R E A : Type} (bs : List (CbRes R E)) (st : EngSt R E A) : Prop where
  act : ∀ p ∈ st.active, ∃ b, bs[p.1]? = some b ∧ b.isThr = false ∧ p.2 = toOutcome b
  set : ∀ i o, Ev.settle i o ∈ st.trace → ∃ b, bs[i]? = some b ∧ b.isThr = false ∧ o = toOutcome b

/-- Initial FailFast accumulator of the array variant:
`out = new Array(array.length)`, no rejection yet. -/
def depA0 (R E : Type) (N : Nat) : DepAcc R E :=
  { out := List.replicate N none, rejected := none }

/-- Initial CollectAll accumulator of the array variant. -/
def indepA0 (R E : Type) (N : Nat) : IndepAcc R E :=
  { results := List.replicate N none
    values := List.replicate N none
    errors := []
    ok := true }

/-- The pre-fill phase of the array variant's `runDependently`. -/
def depPre {α R E : Type} (arr : List α) (cb : α → Nat → CbRes R E) (W : Nat) :
    EngSt R E (DepAcc R E) × Option E :=
  engPrefill (depPolicy R E)
    ((taskList cb arr).take (min W (taskList cb arr).length))
    (engSt0 (depA0 R E (taskList cb arr).length))

/-- The loop phase of the array variant's `runDependently`. -/
def depRun {α R E : Type} (arr : List α) (cb : α → Nat → CbRes R E)
    (canceled : Nat → Bool) (W : Nat) (σ : Nat → Nat) :
    Bool × EngSt R E (DepAcc R E) :=
  engLoop (depPolicy R E) canceled σ
    ((taskList cb arr).drop (min W (taskList cb arr).length)) 0
    (depPre arr cb W).1

/-- The pre-fill phase of the array variant's `runIndependently`. -/
def indepPre {α R E : Type} (arr : List α) (cb : α → Nat → CbRes R E) (W : Nat) :
    EngSt R E (IndepAcc R E) × Option E :=
  engPrefill (indepPolicy R E)
    ((taskList cb arr).take (min W (taskList cb arr).length))
    (engSt0 (indepA0 R E (taskList cb arr).length))

/-- The loop phase of the array variant's `runIndependently`. -/
def indepRun {α R E : Type} (arr : List α) (cb : α → Nat → CbRes R E)
    (canceled : Nat → Bool) (W : Nat) (σ : Nat → Nat) :
    Bool × EngSt R E (IndepAcc R E) :=
  engLoop (indepPolicy R E) canceled σ
    ((taskList cb arr).drop (min W (taskList cb arr).length)) 0
    (indepPre arr cb W).1

/-- The pre-fill phase of the iterator variant's `runDependently`
(`out = new Array(threads)`). -/
def depIterPre {α R E : Type} (src : List α) (cb : α → Nat → CbRes R E)
    (W : Nat) : List α × Nat × EngSt R E (DepAcc R E) × Option E :=
  engPrefillIter (depIterPolicy R E) cb W src 0 (engSt0 (depA0 R E W))

/-- The loop phase of the iterator variant's `runDependently`. -/
def depIterRun {α R E : Type} (src : List α) (cb : α → Nat → CbRes R E)
    (canceled : Nat → Bool) (W : Nat) (σ : Nat → Nat) :
    Option Bool × List α × Nat × EngSt R E (DepAcc R E) :=
  engLoopIter (depIterPolicy R E) cb canceled σ (depIterPre src cb W).1
    (depIterPre src cb W).2.1 0 (depIterPre src cb W).2.2.1

/-- The pre-fill phase of the iterator variant's `runIndependently`. -/
def indepIterPre {α R E : Type} (src : List α) (cb : α → Nat → CbRes R E)
    (W : Nat) : List α × Nat × EngSt R E (IndepAcc R E) × Option E :=
  engPrefillIter (indepIterPolicy R E) cb W src 0 (engSt0 (indepA0 R E W))

/-- The loop phase of the iterator variant's `runIndependently`. -/
def indepIterRun {α R E : Type} (src : List α) (cb : α → Nat → CbRes R E)
    (canceled : Nat → Bool) (W : Nat) (σ : Nat → Nat) :
    Option Bool × List α × Nat × EngSt R E (IndepAcc R E) :=
  engLoopIter (indepIterPolicy R E) cb canceled σ (indepIterPre src cb W).1
    (indepIterPre src cb W).2.1 0 (indepIterPre src cb W).2.2.1

section TraceLemmas

variable {R E : Type}

@[simp]
lemma cntA_append (xs ys : List (Ev R E)) : cntA (xs ++ ys) = cntA xs + cntA ys := by
  induction xs with
  | nil => simp [cntA]
  | cons e tl ih => cases e <;> simp [cntA, ih] <;> omega

@[simp]
lemma cntS_append (xs ys : List (Ev R E)) : cntS (xs ++ ys) = cntS xs + cntS ys := by
  induction xs with
  | nil => simp [cntS]
  | cons e tl ih => cases e <;> simp [cntS, ih] <;> omega

lemma netK_append (k : Nat) (xs ys : List (Ev R E)) :
    netK k (xs ++ ys) = netK (netK k xs) ys := by
  induction xs generalizing k with
  | nil => simp [netK]
  | cons e tl ih => cases e <;> simp [netK, ih]

lemma flightBounded_append (W k : Nat) (xs ys : List (Ev R E)) :
    flightBounded W k (xs ++ ys) =
      (flightBounded W k xs && flightBounded W (netK k xs) ys) := by
  induction xs generalizing k with
  | nil => simp [flightBounded, netK]
  | cons e tl ih =>
    cases e <;> simp [flightBounded, netK, ih, Bool.and_assoc]

lemma firstErr_append (xs ys : List (Ev R E)) :
    firstErr (xs ++ ys) = optOr (firstErr xs) (firstErr ys) := by
  induction xs with
  | nil => simp [firstErr, optOr]
  | cons e tl ih =>
    rcases e with i | ⟨i, o⟩
    · simpa [firstErr, optOr] using ih
    · cases o <;> simp [firstErr, optOr, ih]

@[simp]
lemma startsOf_append (xs ys : List (Ev R E)) :
    startsOf (xs ++ ys) = startsOf xs ++ startsOf ys := by
  induction xs with
  | nil => simp [startsOf]
  | cons e tl ih => cases e <;> simp [startsOf, ih]

@[simp]
lemma settlesOf_append (xs ys : List (Ev R E)) :
    settlesOf (xs ++ ys) = settlesOf xs ++ settlesOf ys := by
  induction xs with
  | nil => simp [settlesOf]
  | cons e tl ih => cases e <;> simp [settlesOf, ih]

@[simp]
lemma errsOf_append (xs ys : List (Ev R E)) :
    errsOf (xs ++ ys) = errsOf xs ++ errsOf ys := by
  induction xs with
  | nil => simp [errsOf]
  | cons e tl ih =>
    rcases e with i | ⟨i, o⟩
    · simpa [errsOf] using ih
    · cases o <;> simp [errsOf, ih]

lemma noStartAfter_append (k : Nat) (xs ys : List (Ev R E)) :
    noStartAfter k (xs ++ ys) =
      (noStartAfter k xs && noStartAfter (k - cntS xs) ys) := by
  induction xs generalizing k with
  | nil => simp [noStartAfter, cntS]
  | cons e tl ih =>
    cases e with
    | start i => simp [noStartAfter, cntS, ih, Bool.and_assoc]
    | settle i o =>
      have hk : k - 1 - cntS tl = k - (cntS tl + 1) := by omega
      simp [noStartAfter, cntS, ih, hk]

lemma mem_startsOf {tr : List (Ev R E)} {i : Nat} :
    i ∈ startsOf tr ↔ Ev.start i ∈ tr := by
  induction tr with
  | nil => simp [startsOf]
  | cons e tl ih => cases e <;> simp [startsOf, ih]

lemma mem_settlesOf {tr : List (Ev R E)} {i : Nat} {o : Except E R} :
    (i, o) ∈ settlesOf tr ↔ Ev.settle i o ∈ tr := by
  induction tr with
  | nil => simp [settlesOf]
  | cons e tl ih => cases e <;> simp [settlesOf, ih]

lemma mem_errsOf {tr : List (Ev R E)} {i : Nat} {e : E} :
    (i, e) ∈ errsOf tr ↔ Ev.settle i (.error e) ∈ tr := by
  induction tr with
  | nil => simp [errsOf]
  | cons ev tl ih =>
    rcases ev with j | ⟨j, o⟩
    · simpa [errsOf] using ih
    · cases o <;> simp [errsOf, ih]

lemma firstErr_isSome_of_mem {tr : List (Ev R E)} {i : Nat} {e : E}
    (h : Ev.settle i (.error e) ∈ tr) : (firstErr tr).isSome := by
  induction tr with
  | nil => simp at h
  | cons ev tl ih =>
    rcases ev with j | ⟨j, o⟩
    · have h' : Ev.settle i (.error e) ∈ tl := by
        rcases List.mem_cons.mp h with h | h
        · exact absurd h (by simp)
        · exact h
      simpa [firstErr] using ih h'
    · cases o with
      | ok r =>
        have h' : Ev.settle i (.error e) ∈ tl := by
          rcases List.mem_cons.mp h with h | h
          · exact absurd h (by simp)
          · exact h
        simpa [firstErr] using ih h'
      | error e' => simp [firstErr]

lemma firstErr_eq_none {tr : List (Ev R E)} :
    (∀ i e, Ev.settle i (.error e) ∉ tr) → firstErr tr = none := by
  induction tr with
  | nil => intro _; rfl
  | cons ev tl ih =>
    intro h
    rcases ev with j | ⟨j, o⟩
    · simpa [firstErr] using ih fun i e hmem => h i e (List.mem_cons_of_mem _ hmem)
    · cases o with
      | ok r =>
        simpa [firstErr] using ih fun i e hmem => h i e (List.mem_cons_of_mem _ hmem)
      | error e' => exact absurd (List.mem_cons_self _ _) (h j e')

end TraceLemmas

section EngineLemmas

variable {R E A : Type} {P : Policy R E A}

lemma accOf_append (P : Policy R E A) (a : A) (xs ys : List (Ev R E)) :
    accOf P a (xs ++ ys) = accOf P (accOf P a xs) ys := by
  induction xs generalizing a with
  | nil => simp [accOf]
  | cons e tl ih =>
    rcases e with i | ⟨i, o⟩
    · simp [accOf, ih]
    · cases o <;> simp [accOf, ih]

lemma engSettle_of_ge {st : EngSt R E A} {j : Nat} (h : st.active.length ≤ j) :
    engSettle P st j = st := by
  have hnone : st.active[j]? = none := List.getElem?_eq_none_iff.mpr h
  simp [engSettle, hnone]

lemma engSettle_spec {st : EngSt R E A} {j : Nat} (h : j < st.active.length) :
    ∃ i o, st.active[j]? = some (i, o) ∧
      (engSettle P st j).active = st.active.eraseIdx j ∧
      (engSettle P st j).cur = st.cur ∧
      (engSettle P st j).ready = st.ready + 1 ∧
      (engSettle P st j).trace = st.trace ++ [.settle i o] ∧
      (engSettle P st j).acc =
        (match o with
         | .ok r => P.foldOk st.acc i r
         | .error e => P.foldErr st.acc i e) := by
  obtain ⟨⟨i, o⟩, hio⟩ : ∃ p, st.active[j]? = some p := by
    rw [List.getElem?_eq_getElem h]; exact ⟨_, rfl⟩
  refine ⟨i, o, hio, ?_⟩
  cases o <;> simp [engSettle, hio]

/-- Positional facts about removing the settled pair from the active set,
using distinctness of the in-flight indices. -/
lemma eraseIdx_fst_facts {β : Type} {l : List (Nat × β)} {j i : Nat} {o : β}
    (hio : l[j]? = some (i, o)) (hn : (l.map Prod.fst).Nodup) :
    i ∉ (l.eraseIdx j).map Prod.fst ∧
      ∀ i', i' ∈ l.map Prod.fst → i' ≠ i → i' ∈ (l.eraseIdx j).map Prod.fst := by
  obtain ⟨hj, hval⟩ := List.getElem?_eq_some.mp hio
  have hdecomp : l = l.take j ++ (i, o) :: l.drop (j + 1) := by
    conv_lhs => rw [← List.take_append_drop j l]
    rw [List.drop_eq_getElem_cons hj, hval]
  have herase : l.eraseIdx j = l.take j ++ l.drop (j + 1) :=
    List.eraseIdx_eq_take_drop_succ l j
  have hmapn : ((l.take j).map Prod.fst ++ i :: (l.drop (j + 1)).map Prod.fst).Nodup := by
    have := hn
    rw [hdecomp] at this
    simpa using this
  have hkey := (List.nodup_cons.mp (List.nodup_middle.mp hmapn)).1
  constructor
  · intro hmem
    rw [herase] at hmem
    exact hkey (by simpa using hmem)
  · intro i' hmem hne
    rw [hdecomp] at hmem
    rw [herase]
    simp only [List.map_append, List.map_cons, List.mem_append, List.mem_cons] at hmem ⊢
    rcases hmem with hmem | hmem | hmem
    · exact Or.inl hmem
    · exact absurd hmem hne
    · exact Or.inr hmem

lemma coreInv_settle {W : Nat} {st : EngSt R E A} (h : CoreInv W st) (j : Nat) :
    CoreInv W (engSettle P st j) := by
  rcases Nat.lt_or_ge j st.active.length with hj | hj
  case inr => rw [engSettle_of_ge hj]; exact h
  obtain ⟨i, o, hio, hact, hcur, hready, htrace, -⟩ := engSettle_spec (P := P) hj
  have hmem : (i, o) ∈ st.active := List.getElem?_mem hio
  have hilt : i < st.cur := h.act_lt _ hmem
  have hlen : (st.active.eraseIdx j).length = st.active.length - 1 := by
    rw [List.length_eraseIdx]; simp [hj]
  have hsub : List.Sublist (st.active.eraseIdx j) st.active := List.eraseIdx_sublist _ _
  obtain ⟨hnotin, hstay⟩ := eraseIdx_fst_facts hio h.act_nodup
  constructor
  · rw [hready, hact, hcur, hlen]
    have := h.count_eq
    omega
  · rw [htrace, hcur]
    simp [cntA, h.cntA_eq]
  · rw [htrace, hready]
    simp [cntS, h.cntS_eq]
  · rw [htrace, hact, hlen, netK_append, h.netK_eq]
    simp [netK]
  · rw [htrace, flightBounded_append, h.netK_eq, h.flight]
    simp [flightBounded]
  · rw [hact, hlen]
    have := h.act_le
    omega
  · rw [htrace, hcur]
    simp [startsOf, h.starts_eq]
  · rw [hact]
    exact h.act_nodup.sublist (hsub.map Prod.fst)
  · intro p hp
    rw [hact] at hp
    rw [hcur]
    exact h.act_lt _ (hsub.subset hp)
  · intro i' o' hmem'
    rw [htrace] at hmem'
    rw [hcur, hact]
    rcases List.mem_append.mp hmem' with hold | hnew
    · obtain ⟨h1, h2⟩ := h.settled_lt _ _ hold
      exact ⟨h1, fun hc => h2 ((hsub.map Prod.fst).subset hc)⟩
    · have : i' = i ∧ o' = o := by simpa using hnew
      rcases this with ⟨rfl, rfl⟩
      exact ⟨hilt, hnotin⟩
  · intro i' hi'
    rw [hcur] at hi'
    rw [htrace, hact]
    rcases h.covered i' hi' with ⟨o', hs⟩ | hact'
    · exact Or.inl ⟨o', List.mem_append_left _ hs⟩
    · by_cases hne : i' = i
      · subst hne
        exact Or.inl ⟨o, List.mem_append_right _ (by simp)⟩
      · exact Or.inr (hstay i' hact' hne)

lemma coreInv_put {W : Nat} {st : EngSt R E A} (h : CoreInv W st)
    (hlt : st.active.length < W) (o : Except E R) : CoreInv W (engPut P st o) := by
  have hcurnotin : st.cur ∉ st.active.map Prod.fst := by
    intro hc
    obtain ⟨p, hp, hfst⟩ := List.mem_map.mp hc
    exact absurd (hfst ▸ h.act_lt p hp) (lt_irrefl _)
  constructor
  · simp only [engPut]
    have := h.count_eq
    simp only [List.length_append, List.length_cons, List.length_nil]
    omega
  · simp [engPut, cntA, h.cntA_eq]
  · simp [engPut, cntS, h.cntS_eq]
  · simp [engPut, netK_append, h.netK_eq, netK]
  · simp only [engPut, flightBounded_append, h.netK_eq, h.flight, Bool.true_and]
    simp [flightBounded, Nat.succ_le_of_lt hlt]
  · simp only [engPut, List.length_append, List.length_cons, List.length_nil]
    omega
  · simp [engPut, startsOf, h.starts_eq, List.range_succ]
  · simp only [engPut, List.map_append, List.map_cons, List.map_nil]
    rw [List.nodup_append]
    refine ⟨h.act_nodup, List.nodup_singleton _, ?_⟩
    intro a ha hb
    have : a = st.cur := by simpa using hb
    subst this
    exact hcurnotin ha
  · intro p hp
    simp only [engPut] at hp ⊢
    rcases List.mem_append.mp hp with hp | hp
    · exact Nat.lt_succ_of_lt (h.act_lt _ hp)
    · have hp' : p = (st.cur, o) := by simpa using hp
      subst hp'
      exact Nat.lt_succ_self _
  · intro i o' hmem
    simp only [engPut] at hmem ⊢
    rcases List.mem_append.mp hmem with hold | hnew
    · obtain ⟨h1, h2⟩ := h.settled_lt _ _ hold
      refine ⟨Nat.lt_succ_of_lt h1, ?_⟩
      simp only [List.map_append, List.map_cons, List.map_nil, List.mem_append,
        List.mem_cons, List.not_mem_nil]
      rintro (hc | hc | hc)
      · exact h2 hc
      · exact absurd (hc ▸ h1) (lt_irrefl _)
      · exact hc
    · simp at hnew
  · intro i hi
    simp only [engPut] at hi ⊢
    rcases Nat.lt_or_ge i st.cur with hlt' | hge
    · rcases h.covered i hlt' with ⟨o', hs⟩ | hact'
      · exact Or.inl ⟨o', List.mem_append_left _ hs⟩
      · refine Or.inr ?_
        simp only [List.map_append, List.map_cons, List.map_nil, List.mem_append]
        exact Or.inl hact'
    · have : i = st.cur := by omega
      subst this
      refine Or.inr ?_
      simp
lemma engDrain_cur {σ : Nat → Nat} :
    ∀ (n t : Nat) (st : EngSt R E A), (engDrain P σ n t st).cur = st.cur := by
  intro n
  induction n with
  | zero => intro t st; rfl
  | succ n ih =>
    intro t st
    by_cases hA : st.active.isEmpty
    · simp [engDrain, hA]
    · rw [engDrain, if_neg (by simp [hA]), ih]
      rcases Nat.lt_or_ge (σ t % st.active.length) st.active.length with hj | hj
      · obtain ⟨i, o, -, -, hcur, -⟩ := engSettle_spec (P := P) hj
        exact hcur
      · rw [engSettle_of_ge hj]

lemma engDrain_active {σ : Nat → Nat} :
    ∀ (n t : Nat) (st : EngSt R E A), st.active.length ≤ n →
      (engDrain P σ n t st).active = [] := by
  intro n
  induction n with
  | zero =>
    intro t st h
    have hnil : st.active = [] := List.eq_nil_of_length_eq_zero (by omega)
    simpa [engDrain] using hnil
  | succ n ih =>
    intro t st h
    by_cases hA : st.active.isEmpty
    · simp [engDrain, hA, List.isEmpty_iff.mp hA]
    · rw [engDrain, if_neg (by simp [hA])]
      have hpos : 0 < st.active.length := by
        rcases List.isEmpty_iff.not.mp hA |> List.length_pos_of_ne_nil with h'
        exact h'
      have hj : σ t % st.active.length < st.active.length := Nat.mod_lt _ hpos
      obtain ⟨i, o, -, hact, -, -, -, -⟩ := engSettle_spec (P := P) hj
      refine ih _ _ ?_
      rw [hact, List.length_eraseIdx]
      simp [hj]
      omega

lemma coreInv_drain {W : Nat} {σ : Nat → Nat} :
    ∀ (n t : Nat) (st : EngSt R E A), CoreInv W st →
      CoreInv W (engDrain P σ n t st) := by
  intro n
  induction n with
  | zero => intro t st h; exact h
  | succ n ih =>
    intro t st h
    by_cases hA : st.active.isEmpty
    · simpa [engDrain, hA] using h
    · rw [engDrain, if_neg (by simp [hA])]
      exact ih _ _ (coreInv_settle h _)

lemma matchInv_settle {bs : List (CbRes R E)} {st : EngSt R E A}
    (h : MatchInv bs st) (j : Nat) : MatchInv bs (engSettle P st j) := by
  rcases Nat.lt_or_ge j st.active.length with hj | hj
  case inr => rw [engSettle_of_ge hj]; exact h
  obtain ⟨i, o, hio, hact, -, -, htrace, -⟩ := engSettle_spec (P := P) hj
  have hmem : (i, o) ∈ st.active := List.getElem?_mem hio
  constructor
  · intro p hp
    rw [hact] at hp
    exact h.act _ ((List.eraseIdx_sublist _ _).subset hp)
  · intro i' o' hmem'
    rw [htrace] at hmem'
    rcases List.mem_append.mp hmem' with hold | hnew
    · exact h.set _ _ hold
    · have : i' = i ∧ o' = o := by simpa using hnew
      rcases this with ⟨rfl, rfl⟩
      exact h.act _ hmem

lemma matchInv_put {bs : List (CbRes R E)} {st : EngSt R E A}
    (h : MatchInv bs st) {b : CbRes R E} (hb : bs[st.cur]? = some b)
    (hthr : b.isThr = false) : MatchInv bs (engPut P st (toOutcome b)) := by
  constructor
  · intro p hp
    simp only [engPut] at hp
    rcases List.mem_append.mp hp with hp | hp
    · exact h.act _ hp
    · have hp' : p = (st.cur, toOutcome b) := by simpa using hp
      subst hp'
      exact ⟨b, hb, hthr, rfl⟩
  · intro i o hmem
    simp only [engPut] at hmem
    rcases List.mem_append.mp hmem with hold | hnew
    · exact h.set _ _ hold
    · simp at hnew

lemma matchInv_drain {bs : List (CbRes R E)} {σ : Nat → Nat} :
    ∀ (n t : Nat) (st : EngSt R E A), MatchInv bs st →
      MatchInv bs (engDrain P σ n t st) := by
  intro n
  induction n with
  | zero => intro t st h; exact h
  | succ n ih =>
    intro t st h
    by_cases hA : st.active.isEmpty
    · simpa [engDrain, hA] using h
    · rw [engDrain, if_neg (by simp [hA])]
      exact ih _ _ (matchInv_settle h _)

lemma accInv_settle {st : EngSt R E A} {a0 : A}
    (h : st.acc = accOf P a0 st.trace) (j : Nat) :
    (engSettle P st j).acc = accOf P a0 (engSettle P st j).trace := by
  rcases Nat.lt_or_ge j st.active.length with hj | hj
  case inr => rw [engSettle_of_ge hj]; exact h
  obtain ⟨i, o, -, -, -, -, htrace, hacc⟩ := engSettle_spec (P := P) hj
  rw [htrace, hacc, accOf_append, ← h]
  cases o <;> simp [accOf]

lemma accInv_put {st : EngSt R E A} {a0 : A}
    (h : st.acc = accOf P a0 st.trace) (o : Except E R) :
    (engPut P st o).acc = accOf P a0 (engPut P st o).trace := by
  simp only [engPut, accOf_append, ← h, accOf]

lemma accInv_drain {σ : Nat → Nat} {a0 : A} :
    ∀ (n t : Nat) (st : EngSt R E A), st.acc = accOf P a0 st.trace →
      (engDrain P σ n t st).acc = accOf P a0 (engDrain P σ n t st).trace := by
  intro n
  induction n with
  | zero => intro t st h; exact h
  | succ n ih =>
    intro t st h
    by_cases hA : st.active.isEmpty
    · simpa [engDrain, hA] using h
    · rw [engDrain, if_neg (by simp [hA])]
      exact ih _ _ (accInv_settle h _)

lemma drop_cons_facts {γ : Type} {bs : List γ} {cur : Nat} {b : γ} {rem' : List γ}
    (h : bs.drop cur = b :: rem') : bs[cur]? = some b ∧ bs.drop (cur + 1) = rem' := by
  constructor
  · have h0 : (bs.drop cur)[0]? = some b := by rw [h]; simp
    rw [List.getElem?_drop] at h0
    simpa using h0
  · have : (bs.drop cur).drop 1 = bs.drop (cur + 1) := by
      rw [List.drop_drop]
    rw [← this, h]
    rfl

end EngineLemmas

section LoopLemmas

variable {R E A : Type} {P : Policy R E A} {W : Nat} {canceled : Nat → Bool}
  {σ : Nat → Nat}

lemma active_pos_of_not_isEmpty {st : EngSt R E A}
    (h : ¬ st.active.isEmpty = true) : 0 < st.active.length := by
  cases hl : st.active with
  | nil => exact absurd (by simp [hl]) h
  | cons p l => simp [hl]

lemma engSettle_mod_length {st : EngSt R E A} (hpos : 0 < st.active.length)
    (j : Nat) :
    (engSettle P st (j % st.active.length)).active.length + 1 =
      st.active.length := by
  have hj : j % st.active.length < st.active.length := Nat.mod_lt _ hpos
  obtain ⟨i, o, -, hact, -⟩ := engSettle_spec (P := P) hj
  rw [hact, List.length_eraseIdx]
  simp [hj]
  omega

lemma engLoop_coreInv :
    ∀ (rem : List (CbRes R E)) (t : Nat) (st : EngSt R E A), CoreInv W st →
      CoreInv W (engLoop P canceled σ rem t st).2 := by
  intro rem
  induction rem with
  | nil =>
    intro t st h
    rw [engLoop]
    by_cases hA : st.active.isEmpty
    · simpa [hA] using h
    · simp only [hA, Bool.false_eq_true, if_false]
      exact coreInv_drain _ _ _ (coreInv_settle h _)
  | cons b rem' ih =>
    intro t st h
    rw [engLoop]
    by_cases hA : st.active.isEmpty
    · simpa [hA] using h
    · simp only [hA, Bool.false_eq_true, if_false]
      by_cases hstop : (canceled (engSettle P st (σ t % st.active.length)).ready
          || P.stopErr (engSettle P st (σ t % st.active.length)).acc) = true
      · simp only [hstop, if_true]
        exact coreInv_drain _ _ _ (coreInv_settle h _)
      · simp only [hstop, Bool.false_eq_true, if_false]
        have h1 := coreInv_settle (P := P) h (σ t % st.active.length)
        have hlen := engSettle_mod_length (P := P)
          (active_pos_of_not_isEmpty hA) (σ t)
        have hlt : (engSettle P st (σ t % st.active.length)).active.length < W := by
          have := h.act_le
          omega
        cases b with
        | thr e => exact coreInv_drain _ _ _ h1
        | ok r => exact ih _ _ (coreInv_put h1 hlt _)
        | err e => exact ih _ _ (coreInv_put h1 hlt _)

lemma engLoop_spec {bs : List (CbRes R E)} {a0 : A} :
    ∀ (rem : List (CbRes R E)) (t : Nat) (st : EngSt R E A),
      CoreInv W st → MatchInv bs st → st.acc = accOf P a0 st.trace →
      rem = bs.drop st.cur →
      (∀ b ∈ rem, b.isThr = false) →
      MatchInv bs (engLoop P canceled σ rem t st).2 ∧
      (engLoop P canceled σ rem t st).2.acc =
        accOf P a0 (engLoop P canceled σ rem t st).2.trace ∧
      (st.active.isEmpty = false → (engLoop P canceled σ rem t st).1 = true) ∧
      ((engLoop P canceled σ rem t st).1 = true →
        (engLoop P canceled σ rem t st).2.active = []) := by
  intro rem
  induction rem with
  | nil =>
    intro t st hc hm ha _ _
    rw [engLoop]
    by_cases hA : st.active.isEmpty
    · refine ⟨by simpa [hA] using hm, by simpa [hA] using ha, ?_, ?_⟩
      · intro hfalse; rw [hA] at hfalse; exact absurd hfalse (by simp)
      · intro habs; simp [hA] at habs
    · simp only [hA, Bool.false_eq_true, if_false]
      refine ⟨matchInv_drain _ _ _ (matchInv_settle hm _),
        accInv_drain _ _ _ (accInv_settle ha _), fun _ => by trivial, fun _ => ?_⟩
      exact engDrain_active _ _ _ (le_refl _)
  | cons b rem' ih =>
    intro t st hc hm ha hrem hthr
    rw [engLoop]
    by_cases hA : st.active.isEmpty
    · refine ⟨by simpa [hA] using hm, by simpa [hA] using ha, ?_, ?_⟩
      · intro hfalse; rw [hA] at hfalse; exact absurd hfalse (by simp)
      · intro habs; simp [hA] at habs
    · simp only [hA, Bool.false_eq_true, if_false]
      obtain ⟨hget, hdrop⟩ := drop_cons_facts hrem.symm
      have hbthr : b.isThr = false := hthr b (List.mem_cons_self _ _)
      by_cases hstop : (canceled (engSettle P st (σ t % st.active.length)).ready
          || P.stopErr (engSettle P st (σ t % st.active.length)).acc) = true
      · simp only [hstop, if_true]
        refine ⟨matchInv_drain _ _ _ (matchInv_settle hm _),
          accInv_drain _ _ _ (accInv_settle ha _), fun _ => by trivial, fun _ => ?_⟩
        exact engDrain_active _ _ _ (le_refl _)
      · simp only [hstop, Bool.false_eq_true, if_false]
        have hc1 := coreInv_settle (P := P) hc (σ t % st.active.length)
        have hm1 := matchInv_settle (P := P) hm (σ t % st.active.length)
        have ha1 := accInv_settle (P := P) ha (σ t % st.active.length)
        have hcur1 : (engSettle P st (σ t % st.active.length)).cur = st.cur := by
          have hj : σ t % st.active.length < st.active.length :=
            Nat.mod_lt _ (active_pos_of_not_isEmpty hA)
          obtain ⟨i, o, -, -, hcur, -⟩ := engSettle_spec (P := P) hj
          exact hcur
        have hput_ne : ∀ (o : Except E R),
            (engPut P (engSettle P st (σ t % st.active.length)) o).active.isEmpty
              = false := by
          intro o
          simp [engPut]
        cases b with
        | thr e => exact absurd hbthr (by simp [CbRes.isThr])
        | ok r =>
          have hres := ih (t + 1)
            (engPut P (engSettle P st (σ t % st.active.length)) (.ok r))
            (coreInv_put hc1 (by
              have hlen := engSettle_mod_length (P := P)
                (active_pos_of_not_isEmpty hA) (σ t)
              have := hc.act_le
              omega) _)
            (by
              have : toOutcome (CbRes.ok r : CbRes R E) = Except.ok r := rfl
              rw [← this]
              exact matchInv_put hm1 (by rw [hcur1]; exact hget) hbthr)
            (accInv_put ha1 _)
            (by simp [engPut, hcur1, hdrop])
            (fun b' hb' => hthr b' (List.mem_cons_of_mem _ hb'))
          exact ⟨hres.1, hres.2.1, fun _ => hres.2.2.1 (hput_ne _), hres.2.2.2⟩
        | err e =>
          have hres := ih (t + 1)
            (engPut P (engSettle P st (σ t % st.active.length)) (.error e))
            (coreInv_put hc1 (by
              have hlen := engSettle_mod_length (P := P)
                (active_pos_of_not_isEmpty hA) (σ t)
              have := hc.act_le
              omega) _)
            (by
              have : toOutcome (CbRes.err e : CbRes R E) = Except.error e := rfl
              rw [← this]
              exact matchInv_put hm1 (by rw [hcur1]; exact hget) hbthr)
            (accInv_put ha1 _)
            (by simp [engPut, hcur1, hdrop])
            (fun b' hb' => hthr b' (List.mem_cons_of_mem _ hb'))
          exact ⟨hres.1, hres.2.1, fun _ => hres.2.2.1 (hput_ne _), hres.2.2.2⟩

lemma engLoop_complete {bs : List (CbRes R E)} {a0 : A}
    (hcf : ∀ n, canceled n = false)
    (hse : ∀ tr : List (Ev R E),
      (∀ i o, Ev.settle i o ∈ tr →
        ∃ b, bs[i]? = some b ∧ b.isThr = false ∧ o = toOutcome b) →
      P.stopErr (accOf P a0 tr) = false) :
    ∀ (rem : List (CbRes R E)) (t : Nat) (st : EngSt R E A),
      CoreInv W st → MatchInv bs st → st.acc = accOf P a0 st.trace →
      rem = bs.drop st.cur → (∀ b ∈ rem, b.isThr = false) →
      st.active.isEmpty = false →
      (engLoop P canceled σ rem t st).2.cur = st.cur + rem.length := by
  intro rem
  induction rem with
  | nil =>
    intro t st hc hm ha _ _ hA
    rw [engLoop]
    simp only [hA, Bool.false_eq_true, if_false]
    rw [engDrain_cur]
    have hj : σ t % st.active.length < st.active.length :=
      Nat.mod_lt _ (active_pos_of_not_isEmpty (by simp [hA]))
    obtain ⟨i, o, -, -, hcur, -⟩ := engSettle_spec (P := P) hj
    simp [hcur]
  | cons b rem' ih =>
    intro t st hc hm ha hrem hthr hA
    rw [engLoop]
    · simp only [hA, Bool.false_eq_true, if_false]
      obtain ⟨hget, hdrop⟩ := drop_cons_facts hrem.symm
      have hbthr : b.isThr = false := hthr b (List.mem_cons_self _ _)
      have hm1 := matchInv_settle (P := P) hm (σ t % st.active.length)
      have ha1 := accInv_settle (P := P) ha (σ t % st.active.length)
      have hc1 := coreInv_settle (P := P) hc (σ t % st.active.length)
      have hstop : (canceled (engSettle P st (σ t % st.active.length)).ready
          || P.stopErr (engSettle P st (σ t % st.active.length)).acc) = false := by
        rw [hcf, ha1, hse _ (fun i o hmem => hm1.set i o hmem)]
        rfl
      simp only [hstop, Bool.false_eq_true, if_false]
      have hcur1 : (engSettle P st (σ t % st.active.length)).cur = st.cur := by
        have hj : σ t % st.active.length < st.active.length :=
          Nat.mod_lt _ (active_pos_of_not_isEmpty (by simp [hA]))
        obtain ⟨i, o, -, -, hcur, -⟩ := engSettle_spec (P := P) hj
        exact hcur
      have hlen := @engSettle_mod_length R E A P st
        (active_pos_of_not_isEmpty (by simp [hA])) (σ t)
      have hlt : (engSettle P st (σ t % st.active.length)).active.length < W := by
        have := hc.act_le
        omega
      cases b with
      | thr e => exact absurd hbthr (by simp [CbRes.isThr])
      | ok r =>
        have hres := ih (t + 1)
          (engPut P (engSettle P st (σ t % st.active.length)) (.ok r))
          (coreInv_put hc1 hlt _)
          (by
            have : toOutcome (CbRes.ok r : CbRes R E) = Except.ok r := rfl
            rw [← this]
            exact matchInv_put hm1 (by rw [hcur1]; exact hget) hbthr)
          (accInv_put ha1 _)
          (by simp [engPut, hcur1, hdrop])
          (fun b' hb' => hthr b' (List.mem_cons_of_mem _ hb'))
          (by simp [engPut])
        rw [hres]
        simp [engPut, hcur1]
        omega
      | err e =>
        have hres := ih (t + 1)
          (engPut P (engSettle P st (σ t % st.active.length)) (.error e))
          (coreInv_put hc1 hlt _)
          (by
            have : toOutcome (CbRes.err e : CbRes R E) = Except.error e := rfl
            rw [← this]
            exact matchInv_put hm1 (by rw [hcur1]; exact hget) hbthr)
          (accInv_put ha1 _)
          (by simp [engPut, hcur1, hdrop])
          (fun b' hb' => hthr b' (List.mem_cons_of_mem _ hb'))
          (by simp [engPut])
        rw [hres]
        simp [engPut, hcur1]
        omega

lemma noStartAfter_settle {K : Nat} {st : EngSt R E A}
    (h : noStartAfter K st.trace = true) (j : Nat) :
    noStartAfter K (engSettle P st j).trace = true := by
  rcases Nat.lt_or_ge j st.active.length with hj | hj
  case inr => rw [engSettle_of_ge hj]; exact h
  obtain ⟨i, o, -, -, -, -, htrace, -⟩ := engSettle_spec (P := P) hj
  rw [htrace, noStartAfter_append, h]
  simp [noStartAfter]

lemma noStartAfter_drain {K : Nat} {σ : Nat → Nat} :
    ∀ (n t : Nat) (st : EngSt R E A), noStartAfter K st.trace = true →
      noStartAfter K (engDrain P σ n t st).trace = true := by
  intro n
  induction n with
  | zero => intro t st h; exact h
  | succ n ih =>
    intro t st h
    by_cases hA : st.active.isEmpty
    · simpa [engDrain, hA] using h
    · rw [engDrain, if_neg (by simp [hA])]
      exact ih _ _ (noStartAfter_settle h _)

lemma noStartAfter_put {K : Nat} {st : EngSt R E A}
    (h : noStartAfter K st.trace = true) (hk : cntS st.trace < K)
    (o : Except E R) : noStartAfter K (engPut P st o).trace = true := by
  simp only [engPut, noStartAfter_append, h, Bool.true_and]
  simp [noStartAfter]
  omega

lemma engLoop_noStartAfter {K : Nat} (hK : ∀ n, K ≤ n → canceled n = true) :
    ∀ (rem : List (CbRes R E)) (t : Nat) (st : EngSt R E A), CoreInv W st →
      noStartAfter K st.trace = true →
      noStartAfter K (engLoop P canceled σ rem t st).2.trace = true := by
  intro rem
  induction rem with
  | nil =>
    intro t st hc h
    rw [engLoop]
    by_cases hA : st.active.isEmpty
    · simpa [hA] using h
    · simp only [hA, Bool.false_eq_true, if_false]
      exact noStartAfter_drain _ _ _ (noStartAfter_settle h _)
  | cons b rem' ih =>
    intro t st hc h
    rw [engLoop]
    by_cases hA : st.active.isEmpty
    · simpa [hA] using h
    · simp only [hA, Bool.false_eq_true, if_false]
      by_cases hstop : (canceled (engSettle P st (σ t % st.active.length)).ready
          || P.stopErr (engSettle P st (σ t % st.active.length)).acc) = true
      · simp only [hstop, if_true]
        exact noStartAfter_drain _ _ _ (noStartAfter_settle h _)
      · simp only [hstop, Bool.false_eq_true, if_false]
        have hc1 := coreInv_settle (P := P) hc (σ t % st.active.length)
        have h1 := noStartAfter_settle (P := P) h (σ t % st.active.length)
        have hlen := @engSettle_mod_length R E A P st
          (active_pos_of_not_isEmpty hA) (σ t)
        have hlt : (engSettle P st (σ t % st.active.length)).active.length < W := by
          have := hc.act_le
          omega
        have hcanc : canceled (engSettle P st (σ t % st.active.length)).ready
            = false := by
          have hstop' : (canceled (engSettle P st (σ t % st.active.length)).ready
              || P.stopErr (engSettle P st (σ t % st.active.length)).acc) = false := by
            simpa using hstop
          exact (Bool.or_eq_false_iff.mp hstop').1
        have hready : cntS (engSettle P st (σ t % st.active.length)).trace < K := by
          rw [hc1.cntS_eq]
          by_contra hge
          rw [hK _ (by omega)] at hcanc
          exact absurd hcanc (by simp)
        cases b with
        | thr e => exact noStartAfter_drain _ _ _ h1
        | ok r => exact ih _ _ (coreInv_put hc1 hlt _) (noStartAfter_put h1 hready _)
        | err e => exact ih _ _ (coreInv_put hc1 hlt _) (noStartAfter_put h1 hready _)

lemma engLoop_cancel_all (hct : ∀ n, canceled n = true) :
    ∀ (rem : List (CbRes R E)) (t : Nat) (st : EngSt R E A),
      st.active.isEmpty = false →
      (engLoop P canceled σ rem t st).1 = true ∧
      (engLoop P canceled σ rem t st).2.cur = st.cur ∧
      (engLoop P canceled σ rem t st).2.active = [] := by
  intro rem t st hA
  have hcur1 : (engSettle P st (σ t % st.active.length)).cur = st.cur := by
    have hj : σ t % st.active.length < st.active.length :=
      Nat.mod_lt _ (active_pos_of_not_isEmpty (by simp [hA]))
    obtain ⟨i, o, -, -, hcur, -⟩ := engSettle_spec (P := P) hj
    exact hcur
  cases rem with
  | nil =>
    rw [engLoop]
    simp only [hA, Bool.false_eq_true, if_false]
    exact ⟨by trivial, by rw [engDrain_cur, hcur1],
      engDrain_active _ _ _ (le_refl _)⟩
  | cons b rem' =>
    rw [engLoop]
    simp only [hA, Bool.false_eq_true, if_false, hct, Bool.true_or, if_true]
    exact ⟨by trivial, by rw [engDrain_cur, hcur1],
      engDrain_active _ _ _ (le_refl _)⟩

end LoopLemmas

section PrefillLemmas

variable {R E A : Type} {P : Policy R E A} {W : Nat}

lemma engPrefill_coreInv :
    ∀ (l : List (CbRes R E)) (st : EngSt R E A), CoreInv W st →
      st.active.length + l.length ≤ W → CoreInv W (engPrefill P l st).1 := by
  intro l
  induction l with
  | nil => intro st h _; exact h
  | cons b tl ih =>
    intro st h hle
    cases b with
    | thr e => exact h
    | ok r =>
      refine ih _ (coreInv_put h (by simp at hle; omega) _) ?_
      simp only [engPut, List.length_append, List.length_cons, List.length_nil]
      simp at hle ⊢
      omega
    | err e =>
      refine ih _ (coreInv_put h (by simp at hle; omega) _) ?_
      simp only [engPut, List.length_append, List.length_cons, List.length_nil]
      simp at hle ⊢
      omega

lemma engPrefill_inv {bs : List (CbRes R E)} {a0 : A} :
    ∀ (l : List (CbRes R E)) (st : EngSt R E A),
      CoreInv W st → MatchInv bs st → st.acc = accOf P a0 st.trace →
      st.active.length + l.length ≤ W →
      (∀ k, k < l.length → l[k]? = bs[st.cur + k]?) →
      (∀ b ∈ l, b.isThr = false) →
      CoreInv W (engPrefill P l st).1 ∧ MatchInv bs (engPrefill P l st).1 ∧
      (engPrefill P l st).1.acc = accOf P a0 (engPrefill P l st).1.trace ∧
      (engPrefill P l st).1.cur = st.cur + l.length ∧
      (engPrefill P l st).1.ready = st.ready ∧
      (engPrefill P l st).1.active.length = st.active.length + l.length ∧
      (engPrefill P l st).2 = none := by
  intro l
  induction l with
  | nil =>
    intro st h1 h2 h3 _ _ _
    exact ⟨h1, h2, h3, by simp [engPrefill], rfl, by simp [engPrefill], rfl⟩
  | cons b tl ih =>
    intro st h1 h2 h3 hle hget hthr
    have hbthr : b.isThr = false := hthr b (List.mem_cons_self _ _)
    have hb0 : bs[st.cur]? = some b := by
      have := hget 0 (by simp)
      simpa using this.symm
    have hgets : ∀ k, k < tl.length → tl[k]? = bs[st.cur + 1 + k]? := by
      intro k hk
      have := hget (k + 1) (by simp; omega)
      simpa [Nat.add_assoc, Nat.add_comm 1 k] using this
    have hlt : st.active.length < W := by simp at hle; omega
    cases b with
    | thr e => exact absurd hbthr (by simp [CbRes.isThr])
    | ok r =>
      simp only [engPrefill]
      have hres := ih (engPut P st (.ok r))
        (coreInv_put h1 hlt _)
        (by
          have : toOutcome (CbRes.ok r : CbRes R E) = Except.ok r := rfl
          rw [← this]
          exact matchInv_put h2 hb0 hbthr)
        (accInv_put h3 _)
        (by simp only [engPut, List.length_append, List.length_cons,
              List.length_nil]
            simp at hle ⊢
            omega)
        (by simpa [engPut] using hgets)
        (fun b' hb' => hthr b' (List.mem_cons_of_mem _ hb'))
      refine ⟨hres.1, hres.2.1, hres.2.2.1, ?_, ?_, ?_, hres.2.2.2.2.2.2⟩
      · rw [hres.2.2.2.1]; simp [engPut]; omega
      · rw [hres.2.2.2.2.1]; simp [engPut]
      · rw [hres.2.2.2.2.2.1]; simp [engPut]; omega
    | err e =>
      simp only [engPrefill]
      have hres := ih (engPut P st (.error e))
        (coreInv_put h1 hlt _)
        (by
          have : toOutcome (CbRes.err e : CbRes R E) = Except.error e := rfl
          rw [← this]
          exact matchInv_put h2 hb0 hbthr)
        (accInv_put h3 _)
        (by simp only [engPut, List.length_append, List.length_cons,
              List.length_nil]
            simp at hle ⊢
            omega)
        (by simpa [engPut] using hgets)
        (fun b' hb' => hthr b' (List.mem_cons_of_mem _ hb'))
      refine ⟨hres.1, hres.2.1, hres.2.2.1, ?_, ?_, ?_, hres.2.2.2.2.2.2⟩
      · rw [hres.2.2.2.1]; simp [engPut]; omega
      · rw [hres.2.2.2.2.1]; simp [engPut]
      · rw [hres.2.2.2.2.2.1]; simp [engPut]; omega

lemma engPrefill_thr :
    ∀ (l1 : List (CbRes R E)), (∀ b ∈ l1, b.isThr = false) →
      ∀ (e : E) (l2 : List (CbRes R E)) (st : EngSt R E A),
        engPrefill P (l1 ++ .thr e :: l2) st = ((engPrefill P l1 st).1, some e) := by
  intro l1
  induction l1 with
  | nil => intro _ e l2 st; simp [engPrefill]
  | cons b tl ih =>
    intro hthr e l2 st
    cases b with
    | thr e' =>
      exact absurd (hthr _ (List.mem_cons_self _ _)) (by simp [CbRes.isThr])
    | ok r =>
      simp only [List.cons_append, engPrefill]
      exact ih (fun b' hb' => hthr b' (List.mem_cons_of_mem _ hb')) e l2 _
    | err e' =>
      simp only [List.cons_append, engPrefill]
      exact ih (fun b' hb' => hthr b' (List.mem_cons_of_mem _ hb')) e l2 _

lemma engPrefill_noStartAfter {K : Nat} (hK : 0 < K) :
    ∀ (l : List (CbRes R E)) (st : EngSt R E A),
      noStartAfter K st.trace = true → cntS st.trace = 0 →
      noStartAfter K (engPrefill P l st).1.trace = true ∧
      cntS (engPrefill P l st).1.trace = 0 := by
  intro l
  induction l with
  | nil => intro st h hz; exact ⟨h, hz⟩
  | cons b tl ih =>
    intro st h hs
    cases b with
    | thr e => exact ⟨h, hs⟩
    | ok r =>
      refine ih _ (noStartAfter_put h (by omega) _) ?_
      simp [engPut, cntS, hs]
    | err e =>
      refine ih _ (noStartAfter_put h (by omega) _) ?_
      simp [engPut, cntS, hs]

end PrefillLemmas

section IterLemmas

variable {α R E A : Type} {P : Policy R E A} {cb : α → Nat → CbRes R E}
  {W : Nat} {canceled : Nat → Bool} {σ : Nat → Nat}

lemma engLoopIter_coreInv :
    ∀ (rem : List α) (pos t : Nat) (st : EngSt R E A), CoreInv W st →
      CoreInv W (engLoopIter P cb canceled σ rem pos t st).2.2.2 := by
  intro rem
  induction rem with
  | nil =>
    intro pos t st h
    rw [engLoopIter]
    by_cases hA : st.active.isEmpty
    · simpa [hA] using h
    · simp only [hA, Bool.false_eq_true, if_false]
      exact coreInv_drain _ _ _ (coreInv_settle h _)
  | cons a rem' ih =>
    intro pos t st h
    rw [engLoopIter]
    by_cases hA : st.active.isEmpty
    · simpa [hA] using h
    · simp only [hA, Bool.false_eq_true, if_false]
      by_cases hstop : (canceled (engSettle P st (σ t % st.active.length)).ready
          || P.stopErr (engSettle P st (σ t % st.active.length)).acc) = true
      · simp only [hstop, if_true]
        exact coreInv_drain _ _ _ (coreInv_settle h _)
      · simp only [hstop, Bool.false_eq_true, if_false]
        have h1 := coreInv_settle (P := P) h (σ t % st.active.length)
        have hlen := @engSettle_mod_length R E A P st
          (active_pos_of_not_isEmpty hA) (σ t)
        have hlt : (engSettle P st (σ t % st.active.length)).active.length < W := by
          have := h.act_le
          omega
        cases hcb : cb a (engSettle P st (σ t % st.active.length)).cur with
        | thr e => exact coreInv_drain _ _ _ h1
        | ok r => exact ih _ _ (engPut P _ (.ok r)) (coreInv_put h1 hlt _)
        | err e => exact ih _ _ (engPut P _ (.error e)) (coreInv_put h1 hlt _)

lemma engLoopIter_pos :
    ∀ (rem : List α) (pos t : Nat) (st : EngSt R E A),
      (pos = st.cur + 1 ∨ (rem = [] ∧ pos ≤ st.cur + 1)) →
      (engLoopIter P cb canceled σ rem pos t st).2.2.1 +
          (engLoopIter P cb canceled σ rem pos t st).2.1.length =
        pos + rem.length ∧
      ((engLoopIter P cb canceled σ rem pos t st).1.isSome →
        (engLoopIter P cb canceled σ rem pos t st).2.1 ≠ [] →
        (engLoopIter P cb canceled σ rem pos t st).2.2.1 =
          (engLoopIter P cb canceled σ rem pos t st).2.2.2.cur + 2) := by
  intro rem
  induction rem with
  | nil =>
    intro pos t st hinv
    rw [engLoopIter]
    by_cases hA : st.active.isEmpty
    · simp [hA]
    · simp [hA]
  | cons a rem' ih =>
    intro pos t st hinv
    have hpos : pos = st.cur + 1 := by
      rcases hinv with h | ⟨habs, -⟩
      · exact h
      · exact absurd habs (by simp)
    rw [engLoopIter]
    by_cases hA : st.active.isEmpty
    · simp [hA]
    · simp only [hA, Bool.false_eq_true, if_false]
      have hcur1 : (engSettle P st (σ t % st.active.length)).cur = st.cur := by
        have hj : σ t % st.active.length < st.active.length :=
          Nat.mod_lt _ (active_pos_of_not_isEmpty (by simp [hA]))
        obtain ⟨i, o, -, -, hcur, -⟩ := engSettle_spec (P := P) hj
        exact hcur
      by_cases hstop : (canceled (engSettle P st (σ t % st.active.length)).ready
          || P.stopErr (engSettle P st (σ t % st.active.length)).acc) = true
      · simp only [hstop, if_true]
        constructor
        · simp
          omega
        · intro _ _
          rw [engDrain_cur, hcur1]
          omega
      · simp only [hstop, Bool.false_eq_true, if_false]
        cases hcb : cb a (engSettle P st (σ t % st.active.length)).cur with
        | thr e =>
          constructor
          · simp
            omega
          · intro habs
            simp at habs
        | ok r =>
          have hres := ih (pos + 1) (t + 1)
            (engPut P (engSettle P st (σ t % st.active.length)) (.ok r))
            (Or.inl (by simp [engPut, hcur1, hpos]))
          refine ⟨?_, hres.2⟩
          rw [hres.1]
          simp
          omega
        | err e =>
          have hres := ih (pos + 1) (t + 1)
            (engPut P (engSettle P st (σ t % st.active.length)) (.error e))
            (Or.inl (by simp [engPut, hcur1, hpos]))
          refine ⟨?_, hres.2⟩
          rw [hres.1]
          simp
          omega

lemma engLoopIter_exit :
    ∀ (rem : List α) (pos t : Nat) (st : EngSt R E A),
      ((engLoopIter P cb canceled σ rem pos t st).1.isSome →
        (engLoopIter P cb canceled σ rem pos t st).2.2.2.active = []) ∧
      ((∀ a i, (cb a i).isThr = false) → st.active.isEmpty = false →
        (engLoopIter P cb canceled σ rem pos t st).1.isSome) := by
  intro rem
  induction rem with
  | nil =>
    intro pos t st
    rw [engLoopIter]
    by_cases hA : st.active.isEmpty
    · constructor
      · intro habs; simp [hA] at habs
      · intro _ hfalse; rw [hA] at hfalse; exact absurd hfalse (by simp)
    · simp only [hA, Bool.false_eq_true, if_false]
      exact ⟨fun _ => engDrain_active _ _ _ (le_refl _), fun _ _ => by simp⟩
  | cons a rem' ih =>
    intro pos t st
    rw [engLoopIter]
    by_cases hA : st.active.isEmpty
    · constructor
      · intro habs; simp [hA] at habs
      · intro _ hfalse; rw [hA] at hfalse; exact absurd hfalse (by simp)
    · simp only [hA, Bool.false_eq_true, if_false]
      by_cases hstop : (canceled (engSettle P st (σ t % st.active.length)).ready
          || P.stopErr (engSettle P st (σ t % st.active.length)).acc) = true
      · simp only [hstop, if_true]
        exact ⟨fun _ => engDrain_active _ _ _ (le_refl _), fun _ _ => by simp⟩
      · simp only [hstop, Bool.false_eq_true, if_false]
        cases hcb : cb a (engSettle P st (σ t % st.active.length)).cur with
        | thr e =>
          constructor
          · intro habs; simp at habs
          · intro hfree _
            have hf := hfree a (engSettle P st (σ t % st.active.length)).cur
            rw [hcb] at hf
            simp [CbRes.isThr] at hf
        | ok r =>
          have hres := ih (pos + 1) (t + 1)
            (engPut P (engSettle P st (σ t % st.active.length)) (.ok r))
          exact ⟨hres.1, fun hfree _ => hres.2 hfree (by simp [engPut])⟩
        | err e =>
          have hres := ih (pos + 1) (t + 1)
            (engPut P (engSettle P st (σ t % st.active.length)) (.error e))
          exact ⟨hres.1, fun hfree _ => hres.2 hfree (by simp [engPut])⟩

lemma engLoopIter_noStartAfter {K : Nat} (hK : ∀ n, K ≤ n → canceled n = true) :
    ∀ (rem : List α) (pos t : Nat) (st : EngSt R E A), CoreInv W st →
      noStartAfter K st.trace = true →
      noStartAfter K (engLoopIter P cb canceled σ rem pos t st).2.2.2.trace
        = true := by
  intro rem
  induction rem with
  | nil =>
    intro pos t st hc h
    rw [engLoopIter]
    by_cases hA : st.active.isEmpty
    · simpa [hA] using h
    · simp only [hA, Bool.false_eq_true, if_false]
      exact noStartAfter_drain _ _ _ (noStartAfter_settle h _)
  | cons a rem' ih =>
    intro pos t st hc h
    rw [engLoopIter]
    by_cases hA : st.active.isEmpty
    · simpa [hA] using h
    · simp only [hA, Bool.false_eq_true, if_false]
      by_cases hstop : (canceled (engSettle P st (σ t % st.active.length)).ready
          || P.stopErr (engSettle P st (σ t % st.active.length)).acc) = true
      · simp only [hstop, if_true]
        exact noStartAfter_drain _ _ _ (noStartAfter_settle h _)
      · simp only [hstop, Bool.false_eq_true, if_false]
        have hc1 := coreInv_settle (P := P) hc (σ t % st.active.length)
        have h1 := noStartAfter_settle (P := P) h (σ t % st.active.length)
        have hlen := @engSettle_mod_length R E A P st
          (active_pos_of_not_isEmpty hA) (σ t)
        have hlt : (engSettle P st (σ t % st.active.length)).active.length < W := by
          have := hc.act_le
          omega
        have hcanc : canceled (engSettle P st (σ t % st.active.length)).ready
            = false := by
          have hstop' : (canceled (engSettle P st (σ t % st.active.length)).ready
              || P.stopErr (engSettle P st (σ t % st.active.length)).acc) = false := by
            simpa using hstop
          exact (Bool.or_eq_false_iff.mp hstop').1
        have hready : cntS (engSettle P st (σ t % st.active.length)).trace < K := by
          rw [hc1.cntS_eq]
          by_contra hge
          rw [hK _ (by omega)] at hcanc
          exact absurd hcanc (by simp)
        cases hcb : cb a (engSettle P st (σ t % st.active.length)).cur with
        | thr e => exact noStartAfter_drain _ _ _ h1
        | ok r =>
          exact ih _ _ (engPut P _ (.ok r)) (coreInv_put hc1 hlt _)
            (noStartAfter_put h1 hready _)
        | err e =>
          exact ih _ _ (engPut P _ (.error e)) (coreInv_put hc1 hlt _)
            (noStartAfter_put h1 hready _)

lemma engLoopIter_cancel_all (hct : ∀ n, canceled n = true) :
    ∀ (rem : List α) (pos t : Nat) (st : EngSt R E A),
      st.active.isEmpty = false →
      (engLoopIter P cb canceled σ rem pos t st).1 = some true ∧
      (engLoopIter P cb canceled σ rem pos t st).2.2.2.cur = st.cur ∧
      (engLoopIter P cb canceled σ rem pos t st).2.2.2.active = [] := by
  intro rem pos t st hA
  have hcur1 : (engSettle P st (σ t % st.active.length)).cur = st.cur := by
    have hj : σ t % st.active.length < st.active.length :=
      Nat.mod_lt _ (active_pos_of_not_isEmpty (by simp [hA]))
    obtain ⟨i, o, -, -, hcur, -⟩ := engSettle_spec (P := P) hj
    exact hcur
  cases rem with
  | nil =>
    rw [engLoopIter]
    simp only [hA, Bool.false_eq_true, if_false]
    exact ⟨by simp [hct], by rw [engDrain_cur, hcur1],
      engDrain_active _ _ _ (le_refl _)⟩
  | cons a rem' =>
    rw [engLoopIter]
    simp only [hA, Bool.false_eq_true, if_false, hct, Bool.true_or, if_true]
    exact ⟨by simp [hct], by rw [engDrain_cur, hcur1],
      engDrain_active _ _ _ (le_refl _)⟩

lemma engPrefillIter_coreInv :
    ∀ (src : List α) (pos : Nat) (st : EngSt R E A), CoreInv W st →
      st.ready = 0 →
      CoreInv W (engPrefillIter P cb W src pos st).2.2.1 ∧
      (engPrefillIter P cb W src pos st).2.2.1.ready = 0 := by
  intro src
  induction src with
  | nil => intro pos st h hr; exact ⟨h, hr⟩
  | cons a tl ih =>
    intro pos st h hr
    rw [engPrefillIter]
    by_cases hW : st.cur < W
    · simp only [hW, if_true]
      have hlt : st.active.length < W := by
        have := h.count_eq
        omega
      cases hcb : cb a st.cur with
      | thr e => exact ⟨h, hr⟩
      | ok r => exact ih _ _ (coreInv_put h hlt _) (by simp [engPut, hr])
      | err e => exact ih _ _ (coreInv_put h hlt _) (by simp [engPut, hr])
    · simp only [hW, if_false]
      exact ⟨h, hr⟩

lemma engPrefillIter_inv (hcb : ∀ a i, (cb a i).isThr = false) :
    ∀ (src : List α) (pos : Nat) (st : EngSt R E A), CoreInv W st →
      st.ready = 0 → st.cur ≤ W → pos = st.cur →
      CoreInv W (engPrefillIter P cb W src pos st).2.2.1 ∧
      (engPrefillIter P cb W src pos st).2.2.1.ready = 0 ∧
      (engPrefillIter P cb W src pos st).2.2.2 = none ∧
      (engPrefillIter P cb W src pos st).2.2.1.cur = min W (st.cur + src.length) ∧
      (engPrefillIter P cb W src pos st).2.1 +
          (engPrefillIter P cb W src pos st).1.length = pos + src.length ∧
      ((engPrefillIter P cb W src pos st).2.1 =
          (engPrefillIter P cb W src pos st).2.2.1.cur + 1 ∨
        ((engPrefillIter P cb W src pos st).1 = [] ∧
          (engPrefillIter P cb W src pos st).2.1 ≤
            (engPrefillIter P cb W src pos st).2.2.1.cur + 1)) := by
  intro src
  induction src with
  | nil =>
    intro pos st h hr hcw hpos
    rw [engPrefillIter]
    refine ⟨h, hr, rfl, ?_, by simp, Or.inr ⟨rfl, by simp; omega⟩⟩
    simp
    omega
  | cons a tl ih =>
    intro pos st h hr hcw hpos
    rw [engPrefillIter]
    by_cases hW : st.cur < W
    · simp only [hW, if_true]
      have hlt : st.active.length < W := by
        have := h.count_eq
        omega
      cases hcb2 : cb a st.cur with
      | thr e =>
        have hf := hcb a st.cur
        rw [hcb2] at hf
        simp [CbRes.isThr] at hf
      | ok r =>
        have hres := ih (pos + 1) (engPut P st (.ok r))
          (coreInv_put h hlt _) (by simp [engPut, hr])
          (by simp [engPut]; omega) (by simp [engPut, hpos])
        refine ⟨hres.1, hres.2.1, hres.2.2.1, ?_, ?_, hres.2.2.2.2.2⟩
        · rw [hres.2.2.2.1]
          simp [engPut]
          omega
        · rw [hres.2.2.2.2.1]
          simp [engPut]
          omega
      | err e =>
        have hres := ih (pos + 1) (engPut P st (.error e))
          (coreInv_put h hlt _) (by simp [engPut, hr])
          (by simp [engPut]; omega) (by simp [engPut, hpos])
        refine ⟨hres.1, hres.2.1, hres.2.2.1, ?_, ?_, hres.2.2.2.2.2⟩
        · rw [hres.2.2.2.1]
          simp [engPut]
          omega
        · rw [hres.2.2.2.2.1]
          simp [engPut]
          omega
    · simp only [hW, if_false]
      have hcur : st.cur = W := by omega
      refine ⟨h, hr, by trivial, ?_, by simp; omega, Or.inl (by simp; omega)⟩
      simp
      omega

lemma engPrefillIter_noStartAfter {K : Nat} (hK : 0 < K) :
    ∀ (src : List α) (pos : Nat) (st : EngSt R E A),
      noStartAfter K st.trace = true → cntS st.trace = 0 →
      noStartAfter K (engPrefillIter P cb W src pos st).2.2.1.trace = true ∧
      cntS (engPrefillIter P cb W src pos st).2.2.1.trace = 0 := by
  intro src
  induction src with
  | nil => intro pos st h hs; exact ⟨h, hs⟩
  | cons a tl ih =>
    intro pos st h hs
    rw [engPrefillIter]
    by_cases hW : st.cur < W
    · simp only [hW, if_true]
      cases hcb : cb a st.cur with
      | thr e => exact ⟨h, hs⟩
      | ok r =>
        refine ih _ _ (noStartAfter_put h (by omega) _) ?_
        simp [engPut, cntS, hs]
      | err e =>
        refine ih _ _ (noStartAfter_put h (by omega) _) ?_
        simp [engPut, cntS, hs]
    · simp only [hW, if_false]
      exact ⟨h, hs⟩

end IterLemmas

section AccReplay

variable {R E : Type}

lemma accOf_dep_out_length (a : DepAcc R E) (tr : List (Ev R E)) :
    (accOf (depPolicy R E) a tr).out.length = a.out.length := by
  induction tr generalizing a with
  | nil => rfl
  | cons ev tl ih =>
    rcases ev with i | ⟨i, o⟩
    · exact ih _
    · cases o with
      | ok r =>
        rw [show accOf (depPolicy R E) a (Ev.settle i (.ok r) :: tl) =
            accOf (depPolicy R E) { a with out := a.out.set i (some r) } tl
          from rfl]
        rw [ih _]
        simp
      | error e =>
        rw [show accOf (depPolicy R E) a (Ev.settle i (.error e) :: tl) =
            accOf (depPolicy R E)
              { a with rejected := match a.rejected with
                                   | some e0 => some e0
                                   | none => some e } tl
          from rfl]
        exact ih _

lemma accOf_dep_out_not_settled {i : Nat} :
    ∀ (tr : List (Ev R E)) (a : DepAcc R E), (∀ o, Ev.settle i o ∉ tr) →
      (accOf (depPolicy R E) a tr).out[i]? = a.out[i]? := by
  intro tr
  induction tr with
  | nil => intro a _; rfl
  | cons ev tl ih =>
    intro a h
    rcases ev with j | ⟨j, o⟩
    · simpa [accOf, depPolicy] using
        ih _ (fun o hmem => h o (List.mem_cons_of_mem _ hmem))
    · have hne : j ≠ i := by
        intro hji
        exact h o (by rw [hji] at *; exact List.mem_cons_self _ _)
      cases o with
      | ok r =>
        rw [show accOf (depPolicy R E) a (Ev.settle j (.ok r) :: tl) =
            accOf (depPolicy R E) { a with out := a.out.set j (some r) } tl
          from rfl]
        rw [ih _ (fun o hmem => h o (List.mem_cons_of_mem _ hmem))]
        exact List.getElem?_set_ne hne
      | error e =>
        rw [show accOf (depPolicy R E) a (Ev.settle j (.error e) :: tl) =
            accOf (depPolicy R E)
              { a with rejected := match a.rejected with
                                   | some e0 => some e0
                                   | none => some e } tl
          from rfl]
        exact ih _ (fun o hmem => h o (List.mem_cons_of_mem _ hmem))

lemma accOf_dep_out_settled {i : Nat} {r : R} :
    ∀ (tr : List (Ev R E)) (a : DepAcc R E), Ev.settle i (.ok r) ∈ tr →
      (∀ o', Ev.settle i o' ∈ tr → o' = .ok r) → i < a.out.length →
      (accOf (depPolicy R E) a tr).out[i]? = some (some r) := by
  intro tr
  induction tr with
  | nil => intro a h _ _; simp at h
  | cons ev tl ih =>
    intro a hmem hdet hi
    rcases ev with j | ⟨j, o⟩
    · have hmem' : Ev.settle i (.ok r) ∈ tl := by
        rcases List.mem_cons.mp hmem with h | h
        · exact absurd h (by simp)
        · exact h
      exact ih _ hmem' (fun o' ho' => hdet o' (List.mem_cons_of_mem _ ho')) hi
    · by_cases hji : j = i
      · subst hji
        have ho : o = .ok r := hdet o (List.mem_cons_self _ _)
        subst ho
        rw [show accOf (depPolicy R E) a (Ev.settle j (.ok r) :: tl) =
            accOf (depPolicy R E) { a with out := a.out.set j (some r) } tl
          from rfl]
        by_cases hrest : ∃ o', Ev.settle j o' ∈ tl
        · obtain ⟨o', ho'⟩ := hrest
          have : o' = .ok r := hdet o' (List.mem_cons_of_mem _ ho')
          subst this
          exact ih _ ho' (fun o'' ho'' => hdet o'' (List.mem_cons_of_mem _ ho''))
            (by simpa using hi)
        · push_neg at hrest
          rw [accOf_dep_out_not_settled _ _ hrest]
          simp only []
          exact List.getElem?_set_eq hi
      · have hmem' : Ev.settle i (.ok r) ∈ tl := by
          rcases List.mem_cons.mp hmem with h | h
          · exact absurd (by injection h with h1 _; exact h1.symm) hji
          · exact h
        cases o with
        | ok r' =>
          rw [show accOf (depPolicy R E) a (Ev.settle j (.ok r') :: tl) =
              accOf (depPolicy R E) { a with out := a.out.set j (some r') } tl
            from rfl]
          exact ih _ hmem' (fun o' ho' => hdet o' (List.mem_cons_of_mem _ ho'))
            (by simpa using hi)
        | error e =>
          rw [show accOf (depPolicy R E) a (Ev.settle j (.error e) :: tl) =
              accOf (depPolicy R E)
                { a with rejected := match a.rejected with
                                     | some e0 => some e0
                                     | none => some e } tl
            from rfl]
          exact ih _ hmem' (fun o' ho' => hdet o' (List.mem_cons_of_mem _ ho')) hi

lemma accOf_dep_rejected :
    ∀ (tr : List (Ev R E)) (a : DepAcc R E),
      (accOf (depPolicy R E) a tr).rejected = optOr a.rejected (firstErr tr) := by
  intro tr
  induction tr with
  | nil => intro a; cases h : a.rejected <;> simp [accOf, optOr, firstErr, h]
  | cons ev tl ih =>
    intro a
    rcases ev with j | ⟨j, o⟩
    · simpa [accOf, depPolicy, firstErr] using ih _
    · cases o with
      | ok r => simpa [accOf, depPolicy, firstErr] using ih _
      | error e =>
        rw [show accOf (depPolicy R E) a (Ev.settle j (.error e) :: tl) =
            accOf (depPolicy R E)
              { a with rejected := match a.rejected with
                                   | some e0 => some e0
                                   | none => some e } tl
          from rfl]
        rw [ih _]
        cases h : a.rejected <;> simp [optOr, firstErr, h]

lemma accOf_indep_lengths (a : IndepAcc R E) (tr : List (Ev R E)) :
    (accOf (indepPolicy R E) a tr).values.length = a.values.length ∧
    (accOf (indepPolicy R E) a tr).results.length = a.results.length := by
  induction tr generalizing a with
  | nil => exact ⟨rfl, rfl⟩
  | cons ev tl ih =>
    rcases ev with i | ⟨i, o⟩
    · exact ih _
    · cases o with
      | ok r =>
        rw [show accOf (indepPolicy R E) a (Ev.settle i (.ok r) :: tl) =
            accOf (indepPolicy R E)
              { a with values := a.values.set i (some r),
                       results := a.results.set i (some (.ok r)) } tl
          from rfl]
        rw [(ih _).1, (ih _).2]
        simp
      | error e =>
        rw [show accOf (indepPolicy R E) a (Ev.settle i (.error e) :: tl) =
            accOf (indepPolicy R E)
              { a with ok := false, errors := a.errors ++ [(i, e)],
                       results := a.results.set i (some (.error e)) } tl
          from rfl]
        rw [(ih _).1, (ih _).2]
        simp

lemma accOf_indep_not_settled {i : Nat} :
    ∀ (tr : List (Ev R E)) (a : IndepAcc R E), (∀ o, Ev.settle i o ∉ tr) →
      (accOf (indepPolicy R E) a tr).values[i]? = a.values[i]? ∧
      (accOf (indepPolicy R E) a tr).results[i]? = a.results[i]? := by
  intro tr
  induction tr with
  | nil => intro a _; exact ⟨rfl, rfl⟩
  | cons ev tl ih =>
    intro a h
    rcases ev with j | ⟨j, o⟩
    · exact ih _ (fun o hmem => h o (List.mem_cons_of_mem _ hmem))
    · have hne : j ≠ i := by
        intro hji
        exact h o (by rw [hji] at *; exact List.mem_cons_self _ _)
      have htl : ∀ o, Ev.settle i o ∉ tl :=
        fun o hmem => h o (List.mem_cons_of_mem _ hmem)
      cases o with
      | ok r =>
        rw [show accOf (indepPolicy R E) a (Ev.settle j (.ok r) :: tl) =
            accOf (indepPolicy R E)
              { a with values := a.values.set j (some r),
                       results := a.results.set j (some (.ok r)) } tl
          from rfl]
        rw [(ih _ htl).1, (ih _ htl).2]
        exact ⟨List.getElem?_set_ne hne, List.getElem?_set_ne hne⟩
      | error e =>
        rw [show accOf (indepPolicy R E) a (Ev.settle j (.error e) :: tl) =
            accOf (indepPolicy R E)
              { a with ok := false, errors := a.errors ++ [(j, e)],
                       results := a.results.set j (some (.error e)) } tl
          from rfl]
        rw [(ih _ htl).1, (ih _ htl).2]
        exact ⟨rfl, List.getElem?_set_ne hne⟩

lemma accOf_indep_settled {i : Nat} {o0 : Except E R} :
    ∀ (tr : List (Ev R E)) (a : IndepAcc R E), Ev.settle i o0 ∈ tr →
      (∀ o', Ev.settle i o' ∈ tr → o' = o0) →
      i < a.values.length → i < a.results.length →
      (accOf (indepPolicy R E) a tr).results[i]? = some (some o0) ∧
      ((∀ r, o0 = .ok r →
        (accOf (indepPolicy R E) a tr).values[i]? = some (some r)) ∧
       (∀ e, o0 = .error e →
        (accOf (indepPolicy R E) a tr).values[i]? = a.values[i]?)) := by
  intro tr
  induction tr with
  | nil => intro a h _ _ _; simp at h
  | cons ev tl ih =>
    intro a hmem hdet hiv hir
    rcases ev with j | ⟨j, o⟩
    · have hmem2 : Ev.settle i o0 ∈ tl := by
        rcases List.mem_cons.mp hmem with h | h
        · exact absurd h (by simp)
        · exact h
      exact ih _ hmem2 (fun o2 ho2 => hdet o2 (List.mem_cons_of_mem _ ho2)) hiv hir
    · by_cases hji : j = i
      · subst hji
        have ho : o = o0 := hdet o (List.mem_cons_self _ _)
        subst ho
        by_cases hrest : ∃ o2, Ev.settle j o2 ∈ tl
        · obtain ⟨o2, ho2⟩ := hrest
          have ho2eq : o2 = o := hdet o2 (List.mem_cons_of_mem _ ho2)
          rw [ho2eq] at ho2
          cases o with
          | ok r =>
            rw [show accOf (indepPolicy R E) a (Ev.settle j (.ok r) :: tl) =
                accOf (indepPolicy R E)
                  { a with values := a.values.set j (some r),
                           results := a.results.set j (some (.ok r)) } tl
              from rfl]
            have hres := ih { a with values := a.values.set j (some r), results := a.results.set j (some (.ok r)) } ho2 (fun o3 ho3 => hdet o3 (List.mem_cons_of_mem _ ho3)) (by simpa using hiv) (by simpa using hir)
            exact ⟨hres.1, hres.2.1, fun e2 he2 => absurd he2 (by simp)⟩
          | error e =>
            rw [show accOf (indepPolicy R E) a (Ev.settle j (.error e) :: tl) =
                accOf (indepPolicy R E)
                  { a with ok := false, errors := a.errors ++ [(j, e)],
                           results := a.results.set j (some (.error e)) } tl
              from rfl]
            have hres := ih { a with ok := false, errors := a.errors ++ [(j, e)], results := a.results.set j (some (.error e)) } ho2 (fun o3 ho3 => hdet o3 (List.mem_cons_of_mem _ ho3)) (by simpa using hiv) (by simpa using hir)
            exact ⟨hres.1, hres.2⟩
        · push_neg at hrest
          cases o with
          | ok r =>
            rw [show accOf (indepPolicy R E) a (Ev.settle j (.ok r) :: tl) =
                accOf (indepPolicy R E)
                  { a with values := a.values.set j (some r),
                           results := a.results.set j (some (.ok r)) } tl
              from rfl]
            obtain ⟨h1, h2⟩ := accOf_indep_not_settled tl _ hrest
            rw [h1, h2]
            refine ⟨by simp only []; exact List.getElem?_set_eq hir, ?_, ?_⟩
            · intro r2 hr2
              have : r2 = r := by injection hr2 with h; exact h.symm
              subst this
              simp only []
              exact List.getElem?_set_eq hiv
            · intro e he
              exact absurd he (by simp)
          | error e =>
            rw [show accOf (indepPolicy R E) a (Ev.settle j (.error e) :: tl) =
                accOf (indepPolicy R E)
                  { a with ok := false, errors := a.errors ++ [(j, e)],
                           results := a.results.set j (some (.error e)) } tl
              from rfl]
            obtain ⟨h1, h2⟩ := accOf_indep_not_settled tl _ hrest
            rw [h1, h2]
            refine ⟨by simp only []; exact List.getElem?_set_eq hir, ?_, ?_⟩
            · intro r2 hr2
              exact absurd hr2 (by simp)
            · intro e2 _
              rfl
      · have hmem2 : Ev.settle i o0 ∈ tl := by
          rcases List.mem_cons.mp hmem with h | h
          · exact absurd (by injection h with h1 _; exact h1.symm) hji
          · exact h
        have hdtl : ∀ o2, Ev.settle i o2 ∈ tl → o2 = o0 :=
          fun o2 ho2 => hdet o2 (List.mem_cons_of_mem _ ho2)
        cases o with
        | ok r =>
          rw [show accOf (indepPolicy R E) a (Ev.settle j (.ok r) :: tl) =
              accOf (indepPolicy R E)
                { a with values := a.values.set j (some r),
                         results := a.results.set j (some (.ok r)) } tl
            from rfl]
          have hres := ih { a with values := a.values.set j (some r), results := a.results.set j (some (.ok r)) } hmem2 hdtl (by simpa using hiv) (by simpa using hir)
          refine ⟨hres.1, hres.2.1, ?_⟩
          intro e he
          rw [hres.2.2 e he]
          simp only []
          exact List.getElem?_set_ne hji
        | error e =>
          rw [show accOf (indepPolicy R E) a (Ev.settle j (.error e) :: tl) =
              accOf (indepPolicy R E)
                { a with ok := false, errors := a.errors ++ [(j, e)],
                         results := a.results.set j (some (.error e)) } tl
            from rfl]
          have hres := ih { a with ok := false, errors := a.errors ++ [(j, e)], results := a.results.set j (some (.error e)) } hmem2 hdtl (by simpa using hiv) (by simpa using hir)
          exact ⟨hres.1, hres.2.1, hres.2.2⟩

lemma accOf_indep_errors :
    ∀ (tr : List (Ev R E)) (a : IndepAcc R E),
      (accOf (indepPolicy R E) a tr).errors = a.errors ++ errsOf tr := by
  intro tr
  induction tr with
  | nil => intro a; simp [accOf, errsOf]
  | cons ev tl ih =>
    intro a
    rcases ev with j | ⟨j, o⟩
    · simpa [errsOf] using ih _
    · cases o with
      | ok r =>
        rw [show accOf (indepPolicy R E) a (Ev.settle j (.ok r) :: tl) =
            accOf (indepPolicy R E)
              { a with values := a.values.set j (some r),
                       results := a.results.set j (some (.ok r)) } tl
          from rfl]
        simpa [errsOf] using ih _
      | error e =>
        rw [show accOf (indepPolicy R E) a (Ev.settle j (.error e) :: tl) =
            accOf (indepPolicy R E)
              { a with ok := false, errors := a.errors ++ [(j, e)],
                       results := a.results.set j (some (.error e)) } tl
          from rfl]
        rw [ih _]
        simp [errsOf]

lemma accOf_indep_ok :
    ∀ (tr : List (Ev R E)) (a : IndepAcc R E),
      (accOf (indepPolicy R E) a tr).ok = (a.ok && (errsOf tr).isEmpty) := by
  intro tr
  induction tr with
  | nil => intro a; simp [accOf, errsOf]
  | cons ev tl ih =>
    intro a
    rcases ev with j | ⟨j, o⟩
    · simpa [errsOf] using ih _
    · cases o with
      | ok r =>
        rw [show accOf (indepPolicy R E) a (Ev.settle j (.ok r) :: tl) =
            accOf (indepPolicy R E)
              { a with values := a.values.set j (some r),
                       results := a.results.set j (some (.ok r)) } tl
          from rfl]
        simpa [errsOf] using ih _
      | error e =>
        rw [show accOf (indepPolicy R E) a (Ev.settle j (.error e) :: tl) =
            accOf (indepPolicy R E)
              { a with ok := false, errors := a.errors ++ [(j, e)],
                       results := a.results.set j (some (.error e)) } tl
          from rfl]
        rw [ih _]
        simp [errsOf]

end AccReplay

section RunLemmas

variable {α R E : Type}

lemma coreInv_engSt0 {A : Type} {W : Nat} (a : A) :
    CoreInv W (engSt0 (R := R) (E := E) a) := by
  refine ⟨rfl, rfl, rfl, rfl, rfl, Nat.zero_le _, by simp [engSt0, startsOf],
    by simp [engSt0], ?_, ?_, ?_⟩
  · intro p hp; simp [engSt0] at hp
  · intro i o hmem; simp [engSt0] at hmem
  · intro i hi; simp [engSt0] at hi

lemma matchInv_engSt0 (bs : List (CbRes R E)) {A : Type} (a : A) :
    MatchInv bs (engSt0 a) := by
  constructor
  · intro p hp; simp [engSt0] at hp
  · intro i o hmem; simp [engSt0] at hmem

lemma depPre_spec (arr : List α) (cb : α → Nat → CbRes R E) (W : Nat)
    (hthr : ∀ b ∈ taskList cb arr, b.isThr = false) :
    CoreInv W (depPre arr cb W).1 ∧
    MatchInv (taskList cb arr) (depPre arr cb W).1 ∧
    (depPre arr cb W).1.acc =
      accOf (depPolicy R E) (depA0 R E (taskList cb arr).length)
        (depPre arr cb W).1.trace ∧
    (depPre arr cb W).1.cur = min W (taskList cb arr).length ∧
    (depPre arr cb W).1.ready = 0 ∧
    (depPre arr cb W).1.active.length = min W (taskList cb arr).length ∧
    (depPre arr cb W).2 = none := by
  simp only [depPre]
  have hres := @engPrefill_inv _ _ _ (depPolicy R E) W (taskList cb arr)
    (depA0 R E (taskList cb arr).length)
    ((taskList cb arr).take (min W (taskList cb arr).length))
    (engSt0 (depA0 R E (taskList cb arr).length))
    (coreInv_engSt0 _) (matchInv_engSt0 _ _) rfl
    (by simp [engSt0, List.length_take])
    (by
      intro k hk
      have hk2 : k < min W (taskList cb arr).length := by
        simp [List.length_take] at hk
        omega
      simp [engSt0, List.getElem?_take, hk2])
    (fun b hb => hthr b (List.take_subset _ _ hb))
  refine ⟨hres.1, hres.2.1, hres.2.2.1, ?_, ?_, ?_, hres.2.2.2.2.2.2⟩
  · rw [hres.2.2.2.1]
    simp [engSt0, List.length_take]
  · rw [hres.2.2.2.2.1]
    rfl
  · rw [hres.2.2.2.2.2.1]
    simp [engSt0, List.length_take]

lemma indepPre_spec (arr : List α) (cb : α → Nat → CbRes R E) (W : Nat)
    (hthr : ∀ b ∈ taskList cb arr, b.isThr = false) :
    CoreInv W (indepPre arr cb W).1 ∧
    MatchInv (taskList cb arr) (indepPre arr cb W).1 ∧
    (indepPre arr cb W).1.acc =
      accOf (indepPolicy R E) (indepA0 R E (taskList cb arr).length)
        (indepPre arr cb W).1.trace ∧
    (indepPre arr cb W).1.cur = min W (taskList cb arr).length ∧
    (indepPre arr cb W).1.ready = 0 ∧
    (indepPre arr cb W).1.active.length = min W (taskList cb arr).length ∧
    (indepPre arr cb W).2 = none := by
  simp only [indepPre]
  have hres := @engPrefill_inv _ _ _ (indepPolicy R E) W (taskList cb arr)
    (indepA0 R E (taskList cb arr).length)
    ((taskList cb arr).take (min W (taskList cb arr).length))
    (engSt0 (indepA0 R E (taskList cb arr).length))
    (coreInv_engSt0 _) (matchInv_engSt0 _ _) rfl
    (by simp [engSt0, List.length_take])
    (by
      intro k hk
      have hk2 : k < min W (taskList cb arr).length := by
        simp [List.length_take] at hk
        omega
      simp [engSt0, List.getElem?_take, hk2])
    (fun b hb => hthr b (List.take_subset _ _ hb))
  refine ⟨hres.1, hres.2.1, hres.2.2.1, ?_, ?_, ?_, hres.2.2.2.2.2.2⟩
  · rw [hres.2.2.2.1]
    simp [engSt0, List.length_take]
  · rw [hres.2.2.2.2.1]
    rfl
  · rw [hres.2.2.2.2.2.1]
    simp [engSt0, List.length_take]

lemma runDependently_eq (arr : List α) (cb : α → Nat → CbRes R E)
    (canceled : Nat → Bool) (W : Nat) (σ : Nat → Nat)
    (hpre : (depPre arr cb W).2 = none) :
    runDependently arr cb canceled W σ =
      (match (depRun arr cb canceled W σ).2.acc.rejected with
       | some e => (some (.error e), (depRun arr cb canceled W σ).2)
       | none => (if (depRun arr cb canceled W σ).1
                  then some (.ok (depRun arr cb canceled W σ).2.acc.out)
                  else none,
                  (depRun arr cb canceled W σ).2)) := by
  have hpre2 := hpre
  simp only [depPre, depA0] at hpre2
  simp only [runDependently, depRun, depPre, depA0]
  rw [hpre2]

lemma runDependently_eq_thr (arr : List α) (cb : α → Nat → CbRes R E)
    (canceled : Nat → Bool) (W : Nat) (σ : Nat → Nat) (e : E)
    (hpre : (depPre arr cb W).2 = some e) :
    runDependently arr cb canceled W σ = (some (.error e), (depPre arr cb W).1) := by
  have hpre2 := hpre
  simp only [depPre, depA0] at hpre2
  simp only [runDependently, depPre, depA0]
  rw [hpre2]

lemma runIndependently_eq (arr : List α) (cb : α → Nat → CbRes R E)
    (canceled : Nat → Bool) (W : Nat) (σ : Nat → Nat)
    (hpre : (indepPre arr cb W).2 = none) :
    runIndependently arr cb canceled W σ =
      (if (indepRun arr cb canceled W σ).1
       then some (.ok (indepRun arr cb canceled W σ).2.acc)
       else none,
       (indepRun arr cb canceled W σ).2) := by
  have hpre2 := hpre
  simp only [indepPre, indepA0] at hpre2
  simp only [runIndependently, indepRun, indepPre, indepA0]
  rw [hpre2]

lemma runIndependently_eq_thr (arr : List α) (cb : α → Nat → CbRes R E)
    (canceled : Nat → Bool) (W : Nat) (σ : Nat → Nat) (e : E)
    (hpre : (indepPre arr cb W).2 = some e) :
    runIndependently arr cb canceled W σ =
      (some (.error e), (indepPre arr cb W).1) := by
  have hpre2 := hpre
  simp only [indepPre, indepA0] at hpre2
  simp only [runIndependently, indepPre, indepA0]
  rw [hpre2]

lemma runDependentlyIter_eq (src : List α) (cb : α → Nat → CbRes R E)
    (canceled : Nat → Bool) (W : Nat) (σ : Nat → Nat)
    (hpre : (depIterPre src cb W).2.2.2 = none) :
    runDependentlyIter src cb canceled W σ =
      (match (depIterRun src cb canceled W σ).2.2.2.acc.rejected with
       | some e => (some (.error e), (depIterRun src cb canceled W σ).1,
           (depIterRun src cb canceled W σ).2.2.1,
           (depIterRun src cb canceled W σ).2.2.2)
       | none => (if (depIterRun src cb canceled W σ).1.isSome
                  then some (.ok (depIterRun src cb canceled W σ).2.2.2.acc.out)
                  else none,
                  (depIterRun src cb canceled W σ).1,
                  (depIterRun src cb canceled W σ).2.2.1,
                  (depIterRun src cb canceled W σ).2.2.2)) := by
  have hsplit : engPrefillIter (depIterPolicy R E) cb W src 0
      (engSt0 (depA0 R E W)) =
      ((depIterPre src cb W).1, (depIterPre src cb W).2.1,
        (depIterPre src cb W).2.2.1, (none : Option E)) := by
    rw [← hpre]
    rfl
  simp only [runDependentlyIter, depIterRun, depIterPre, depA0] at *
  rw [hsplit]

lemma runDependentlyIter_eq_thr (src : List α) (cb : α → Nat → CbRes R E)
    (canceled : Nat → Bool) (W : Nat) (σ : Nat → Nat) (e : E)
    (hpre : (depIterPre src cb W).2.2.2 = some e) :
    runDependentlyIter src cb canceled W σ =
      (some (.error e), none, (depIterPre src cb W).2.1,
        (depIterPre src cb W).2.2.1) := by
  have hsplit : engPrefillIter (depIterPolicy R E) cb W src 0
      (engSt0 (depA0 R E W)) =
      ((depIterPre src cb W).1, (depIterPre src cb W).2.1,
        (depIterPre src cb W).2.2.1, some e) := by
    rw [← hpre]
    rfl
  simp only [runDependentlyIter, depIterPre, depA0] at *
  rw [hsplit]

lemma runIndependentlyIter_eq (src : List α) (cb : α → Nat → CbRes R E)
    (canceled : Nat → Bool) (W : Nat) (σ : Nat → Nat)
    (hpre : (indepIterPre src cb W).2.2.2 = none) :
    runIndependentlyIter src cb canceled W σ =
      (if (indepIterRun src cb canceled W σ).1.isSome
       then some (.ok (indepIterRun src cb canceled W σ).2.2.2.acc)
       else none,
       (indepIterRun src cb canceled W σ).1,
       (indepIterRun src cb canceled W σ).2.2.1,
       (indepIterRun src cb canceled W σ).2.2.2) := by
  have hsplit : engPrefillIter (indepIterPolicy R E) cb W src 0
      (engSt0 (indepA0 R E W)) =
      ((indepIterPre src cb W).1, (indepIterPre src cb W).2.1,
        (indepIterPre src cb W).2.2.1, (none : Option E)) := by
    rw [← hpre]
    rfl
  simp only [runIndependentlyIter, indepIterRun, indepIterPre, indepA0] at *
  rw [hsplit]

lemma runIndependentlyIter_eq_thr (src : List α) (cb : α → Nat → CbRes R E)
    (canceled : Nat → Bool) (W : Nat) (σ : Nat → Nat) (e : E)
    (hpre : (indepIterPre src cb W).2.2.2 = some e) :
    runIndependentlyIter src cb canceled W σ =
      (some (.error e), none, (indepIterPre src cb W).2.1,
        (indepIterPre src cb W).2.2.1) := by
  have hsplit : engPrefillIter (indepIterPolicy R E) cb W src 0
      (engSt0 (indepA0 R E W)) =
      ((indepIterPre src cb W).1, (indepIterPre src cb W).2.1,
        (indepIterPre src cb W).2.2.1, some e) := by
    rw [← hpre]
    rfl
  simp only [runIndependentlyIter, indepIterPre, indepA0] at *
  rw [hsplit]

end RunLemmas

section TaskListLemmas

variable {α R E : Type}

lemma taskList_length (cb : α → Nat → CbRes R E) (arr : List α) :
    (taskList cb arr).length = arr.length := by
  simp [taskList]

lemma taskList_getElem (cb : α → Nat → CbRes R E) (arr : List α) (i : Nat) :
    (taskList cb arr)[i]? = arr[i]?.map fun a => cb a i := by
  simp [taskList, List.getElem?_enum]
  rcases arr[i]? with - | a <;> simp

lemma taskList_no_thr {cb : α → Nat → CbRes R E} {arr : List α}
    (hcb : ∀ a i, (cb a i).isThr = false) :
    ∀ b ∈ taskList cb arr, b.isThr = false := by
  intro b hb
  simp only [taskList, List.mem_map] at hb
  obtain ⟨p, -, rfl⟩ := hb
  exact hcb p.2 p.1

end TaskListLemmas

/-- Claim C9, counterexample: the resolved window is NOT always at least 2.
The process-wide mutable default is used unclamped when `threads` is
absent, so after `config.defaultThreads = 1` the resolved window is 1. -/
theorem claim_c9_counterexample :
    getOptions { defaultThreads := 1 } none = 1 ∧
    ¬ (2 ≤ getOptions { defaultThreads := 1 } none) := by
  exact ⟨rfl, by decide⟩

/-- Claim C9 (amended): the resolved window equals `max(threads, 2)` (hence
is at least 2) whenever `threads` is present and numeric — in particular
`threads = 1` resolves to 2 — and equals the current process-wide mutable
default, unclamped, whenever `threads` is absent or not a number; that
default is initially 4, so the window can only drop below 2 after the
default has been mutated below 2. -/
theorem claim_c9_amended :
    (∀ (cfg : Config) (t : Int),
      getOptions cfg (some { threads := some t }) = max t 2 ∧
      2 ≤ getOptions cfg (some { threads := some t })) ∧
    (∀ cfg : Config,
      getOptions cfg (some { threads := none }) = cfg.defaultThreads ∧
      getOptions cfg none = cfg.defaultThreads) ∧
    getOptions config0 none = 4 ∧
    getOptions config0 (some { threads := some 1 }) = 2 := by
  exact ⟨fun cfg t => ⟨rfl, le_max_right t 2⟩, fun cfg => ⟨rfl, rfl⟩, rfl, rfl⟩

/-- Claim C3: the claim is right about zero admissions, but the code hangs:
with an empty source no task is ever admitted, `tasks` stays empty, and
`Promise.race([])` never settles, so none of the four entry points ever
resolves — instead of the claimed immediate empty finalize.  The run's
outer promise is `none` (never settles) in all four models. -/
theorem claim_c3_empty_source_hangs :
    ∀ (R E : Type) (cb : Nat → Nat → CbRes R E) (canceled : Nat → Bool)
      (W : Nat) (σ : Nat → Nat),
      (runDependently [] cb canceled W σ).1 = none ∧
      (runIndependently [] cb canceled W σ).1 = none ∧
      (runDependentlyIter [] cb canceled W σ).1 = none ∧
      (runIndependentlyIter [] cb canceled W σ).1 = none := by
  intro R E cb canceled W σ
  refine ⟨?_, ?_, ?_, ?_⟩
  · simp [runDependently, taskList, engPrefill, engLoop, engSt0]
  · simp [runIndependently, taskList, engPrefill, engLoop, engSt0]
  · simp [runDependentlyIter, engPrefillIter, engLoopIter, engSt0]
  · simp [runIndependentlyIter, engPrefillIter, engLoopIter, engSt0]

/-- Claim C4, counterexample: a work function that throws synchronously is
NOT treated identically to one returning a rejected promise.  Over the
one-element source `[0]`, a synchronous throw of `7` makes
`runIndependently` REJECT with `7` (the `Promise` executor throws during
the pre-fill), while an asynchronous rejection with `7` resolves with the
CollectAll bundle; the two overall results differ. -/
theorem claim_c4_counterexample :
    (runIndependently [0] (fun _ _ => CbRes.thr 7 : Nat → Nat → CbRes Nat Nat)
      (fun _ => false) 2 (fun _ => 0)).1 = some (.error 7) ∧
    (runIndependently [0] (fun _ _ => CbRes.err 7 : Nat → Nat → CbRes Nat Nat)
      (fun _ => false) 2 (fun _ => 0)).1 =
      some (.ok { results := [some (.error 7)], values := [none],
                  errors := [(0, 7)], ok := false }) ∧
    (some (Except.error 7) : Option (Except Nat (IndepAcc Nat Nat))) ≠
      some (.ok { results := [some (.error 7)], values := [none],
                  errors := [(0, 7)], ok := false }) := by
  refine ⟨by decide, by decide, by decide⟩

/-- Claim C1, counterexample: the iterator-backed `runDependently` does not
resolve to the ordered sequence of all `N` results.  Over the 3-element
source `[1,2,3]` with window 2 and a doubling work function, the pre-fill
`for`-loop's update clause pulls element `3` and then discards it when the
`currentIndex < threads` test fails, so the run resolves to
`[2,4]` — element `3` is never admitted, and the resolved sequence has
length 2, not 3. -/
theorem claim_c1_counterexample :
    (runDependentlyIter [1, 2, 3]
      (fun a _ => CbRes.ok (2 * a) : Nat → Nat → CbRes Nat Nat)
      (fun _ => false) 2 (fun _ => 0)).1 = some (.ok [some 2, some 4]) ∧
    (some (Except.ok [some 2, some 4]) : Option (Except Nat (List (Option Nat))))
      ≠ some (.ok [some 2, some 4, some 6]) := by
  refine ⟨by decide, by decide⟩

/-- Claim C2, counterexample: the iterator-backed `runIndependently` over
the 3-element all-succeeding source `[1,2,3]` with window 2 drops element
`3` (the pre-fill lookahead discard), so the bundle is populated only at
indices 0 and 1 even though no task failed — `values` has no cell for
index 2, contradicting "populated with successes at exactly the indices
not in F" with `F = ∅` over a 3-element source. -/
theorem claim_c2_counterexample :
    (runIndependentlyIter [1, 2, 3]
      (fun a _ => CbRes.ok (2 * a) : Nat → Nat → CbRes Nat Nat)
      (fun _ => false) 2 (fun _ => 0)).1 =
      some (.ok { results := [some (.ok 2), some (.ok 4)],
                  values := [some 2, some 4], errors := [], ok := true }) ∧
    ([some 2, some 4] : List (Option Nat))[2]? = none := by
  refine ⟨by decide, by decide⟩

/-- Claim C10, counterexample: when an iterator-backed run stops because
the cancellation predicate is true, it is not "exactly one" element beyond
the admitted ones that has been consumed.  Over `[1,2,3,4,5]` with window
2 and cancellation from the first settlement on, the run admits 2 items
but has consumed 4 elements: one discarded by the pre-fill loop's final
lookahead pull and one discarded by the pull at the stopping boundary. -/
theorem claim_c10_counterexample :
    (runDependentlyIter [1, 2, 3, 4, 5]
      (fun a _ => CbRes.ok (2 * a) : Nat → Nat → CbRes Nat Nat)
      (fun n => decide (1 ≤ n)) 2 (fun _ => 0)).2.1 = some true ∧
    (runDependentlyIter [1, 2, 3, 4, 5]
      (fun a _ => CbRes.ok (2 * a) : Nat → Nat → CbRes Nat Nat)
      (fun n => decide (1 ≤ n)) 2 (fun _ => 0)).2.2.1 = 4 ∧
    cntA (runDependentlyIter [1, 2, 3, 4, 5]
      (fun a _ => CbRes.ok (2 * a) : Nat → Nat → CbRes Nat Nat)
      (fun n => decide (1 ≤ n)) 2 (fun _ => 0)).2.2.2.trace = 2 ∧
    (4 : Nat) ≠ 2 + 1 := by
  refine ⟨by decide, by decide, by decide, by decide⟩

/-- Claim C4 (amended): synchronous throws are NOT normalized like
asynchronous rejections.  If the work function throws synchronously for an
item that falls inside the pre-fill wave (all earlier items not throwing),
the `Promise` executor itself throws, so the promise returned by
`runDependently` — and equally by `runIndependently`, which is documented
never to reject — rejects with the thrown error; the item's outcome is
never folded in and the settled count never advances. -/
theorem claim_c4_amended :
    ∀ (α R E : Type) (p : List (CbRes R E)) (e : E) (rest : List (CbRes R E))
      (arr : List α) (cb : α → Nat → CbRes R E) (canceled : Nat → Bool)
      (W : Nat) (σ : Nat → Nat),
      taskList cb arr = p ++ .thr e :: rest →
      (∀ b ∈ p, b.isThr = false) →
      p.length < W →
      (runDependently arr cb canceled W σ).1 = some (.error e) ∧
      (runIndependently arr cb canceled W σ).1 = some (.error e) := by
  intro α R E p e rest arr cb canceled W σ hsplit hp hpW
  have hlen : p.length < (taskList cb arr).length := by
    rw [hsplit]
    simp
  have hmin : p.length < min W (taskList cb arr).length := by omega
  have htake : (taskList cb arr).take (min W (taskList cb arr).length) =
      p ++ .thr e ::
        (rest.take (min W (taskList cb arr).length - p.length - 1)) := by
    set m := min W (taskList cb arr).length with hm
    rw [hsplit, List.take_append_eq_append_take,
      List.take_all_of_le (le_of_lt hmin)]
    congr 1
    have hsucc : m - p.length = (m - p.length - 1) + 1 := by omega
    rw [hsucc]
    rfl
  constructor
  · have hpre : (depPre arr cb W).2 = some e := by
      simp only [depPre]
      rw [htake, engPrefill_thr p hp e _ _]
    rw [runDependently_eq_thr arr cb canceled W σ e hpre]
  · have hpre : (indepPre arr cb W).2 = some e := by
      simp only [indepPre]
      rw [htake, engPrefill_thr p hp e _ _]
    rw [runIndependently_eq_thr arr cb canceled W σ e hpre]

/-- Claim C4, witness for the amended theorem at a concrete input. -/
theorem claim_c4_witness :
    (runDependently [10, 20]
      (fun _ i => if i = 1 then CbRes.thr 3 else CbRes.ok 0 :
        Nat → Nat → CbRes Nat Nat)
      (fun _ => false) 2 (fun _ => 0)).1 = some (.error 3) ∧
    (runIndependently [10, 20]
      (fun _ i => if i = 1 then CbRes.thr 3 else CbRes.ok 0 :
        Nat → Nat → CbRes Nat Nat)
      (fun _ => false) 2 (fun _ => 0)).1 = some (.error 3) :=
  claim_c4_amended Nat Nat Nat [CbRes.ok 0] 3 [] [10, 20]
    (fun _ i => if i = 1 then CbRes.thr 3 else CbRes.ok 0)
    (fun _ => false) 2 (fun _ => 0) (by decide) (by decide) (by decide)

/-- Claim C6: throughout every run of each of the four entry points, the
number of in-flight tasks never exceeds the window `W` at any instant:
`flightBounded W` checks every prefix of the admission/settlement trace. -/
theorem claim_c6_window_bound :
    (∀ (α R E : Type) (arr : List α) (cb : α → Nat → CbRes R E)
       (canceled : Nat → Bool) (W : Nat) (σ : Nat → Nat),
       flightBounded W 0 (runDependently arr cb canceled W σ).2.trace = true) ∧
    (∀ (α R E : Type) (arr : List α) (cb : α → Nat → CbRes R E)
       (canceled : Nat → Bool) (W : Nat) (σ : Nat → Nat),
       flightBounded W 0 (runIndependently arr cb canceled W σ).2.trace = true) ∧
    (∀ (α R E : Type) (src : List α) (cb : α → Nat → CbRes R E)
       (canceled : Nat → Bool) (W : Nat) (σ : Nat → Nat),
       flightBounded W 0
         (runDependentlyIter src cb canceled W σ).2.2.2.trace = true) ∧
    (∀ (α R E : Type) (src : List α) (cb : α → Nat → CbRes R E)
       (canceled : Nat → Bool) (W : Nat) (σ : Nat → Nat),
       flightBounded W 0
         (runIndependentlyIter src cb canceled W σ).2.2.2.trace = true) := by
  have harr : ∀ (α R E A : Type) (P : Policy R E A) (arr : List α)
      (cb : α → Nat → CbRes R E) (W : Nat) (a : A),
      CoreInv W (engPrefill P
        ((taskList cb arr).take (min W (taskList cb arr).length))
        (engSt0 a)).1 := by
    intro α R E A P arr cb W a
    exact engPrefill_coreInv _ _ (coreInv_engSt0 _)
      (by simp [engSt0, List.length_take])
  refine ⟨?_, ?_, ?_, ?_⟩
  · intro α R E arr cb canceled W σ
    cases hpre : (depPre arr cb W).2 with
    | some e =>
      rw [runDependently_eq_thr arr cb canceled W σ e hpre]
      exact (harr α R E _ (depPolicy R E) arr cb W _).flight
    | none =>
      rw [runDependently_eq arr cb canceled W σ hpre]
      have hcore := @engLoop_coreInv _ _ _ (depPolicy R E) _ canceled
        σ ((taskList cb arr).drop (min W (taskList cb arr).length)) 0
        (depPre arr cb W).1 (harr α R E _ (depPolicy R E) arr cb W _)
      cases h : (depRun arr cb canceled W σ).2.acc.rejected
      · simpa [depRun] using hcore.flight
      · simpa [depRun] using hcore.flight
  · intro α R E arr cb canceled W σ
    cases hpre : (indepPre arr cb W).2 with
    | some e =>
      rw [runIndependently_eq_thr arr cb canceled W σ e hpre]
      exact (harr α R E _ (indepPolicy R E) arr cb W _).flight
    | none =>
      rw [runIndependently_eq arr cb canceled W σ hpre]
      have hcore := @engLoop_coreInv _ _ _ (indepPolicy R E) _ canceled
        σ ((taskList cb arr).drop (min W (taskList cb arr).length)) 0
        (indepPre arr cb W).1 (harr α R E _ (indepPolicy R E) arr cb W _)
      simpa [indepRun] using hcore.flight
  · intro α R E src cb canceled W σ
    have hpre0 := @engPrefillIter_coreInv _ _ _ _ (depIterPolicy R E) cb
      W src 0 (engSt0 (depA0 R E W)) (coreInv_engSt0 _) rfl
    cases hpre : (depIterPre src cb W).2.2.2 with
    | some e =>
      rw [runDependentlyIter_eq_thr src cb canceled W σ e hpre]
      exact (hpre0.1).flight
    | none =>
      rw [runDependentlyIter_eq src cb canceled W σ hpre]
      have hcore := @engLoopIter_coreInv _ _ _ _ (depIterPolicy R E) cb
        _ canceled σ (depIterPre src cb W).1
        (depIterPre src cb W).2.1 0 (depIterPre src cb W).2.2.1 hpre0.1
      cases h : (depIterRun src cb canceled W σ).2.2.2.acc.rejected
      · simpa [depIterRun] using hcore.flight
      · simpa [depIterRun] using hcore.flight
  · intro α R E src cb canceled W σ
    have hpre0 := @engPrefillIter_coreInv _ _ _ _ (indepIterPolicy R E) cb
      W src 0 (engSt0 (indepA0 R E W)) (coreInv_engSt0 _) rfl
    cases hpre : (indepIterPre src cb W).2.2.2 with
    | some e =>
      rw [runIndependentlyIter_eq_thr src cb canceled W σ e hpre]
      exact (hpre0.1).flight
    | none =>
      rw [runIndependentlyIter_eq src cb canceled W σ hpre]
      have hcore := @engLoopIter_coreInv _ _ _ _ (indepIterPolicy R E) cb
        _ canceled σ (indepIterPre src cb W).1
        (indepIterPre src cb W).2.1 0 (indepIterPre src cb W).2.2.1 hpre0.1
      simpa [indepIterRun] using hcore.flight

/-- Claim C5: whenever an admitted task fails (and the work function never
throws synchronously), `runDependently` rejects with exactly the error of
the first task observed to fail — `firstErr` of the trace — and later
failures are discarded: the rejection value is the first failed
settlement's error and nothing else. -/
theorem claim_c5_failfast_first_error :
    ∀ (α R E : Type) (arr : List α) (cb : α → Nat → CbRes R E)
      (canceled : Nat → Bool) (W : Nat) (σ : Nat → Nat) (i : Nat) (e' : E),
      (∀ b ∈ taskList cb arr, b.isThr = false) →
      (taskList cb arr)[i]? = some (.err e') →
      Ev.start i ∈ (runDependently arr cb canceled W σ).2.trace →
      ∃ e, firstErr (runDependently arr cb canceled W σ).2.trace = some e ∧
        (runDependently arr cb canceled W σ).1 = some (.error e) := by
  intro α R E arr cb canceled W σ i e' hthr hget hadm
  obtain ⟨hc0, hm0, ha0, hcur0, hready0, hact0, hpre⟩ := depPre_spec arr cb W hthr
  rw [runDependently_eq arr cb canceled W σ hpre] at hadm ⊢
  have hsnd : (match (depRun arr cb canceled W σ).2.acc.rejected with
      | some e => (some (Except.error e), (depRun arr cb canceled W σ).2)
      | none => (if (depRun arr cb canceled W σ).1
                 then some (Except.ok (depRun arr cb canceled W σ).2.acc.out)
                 else none,
                 (depRun arr cb canceled W σ).2)).2
      = (depRun arr cb canceled W σ).2 := by
    rcases (depRun arr cb canceled W σ).2.acc.rejected with - | e2 <;> rfl
  rw [hsnd] at hadm ⊢
  have hspec := @engLoop_spec _ _ _ (depPolicy R E) W
    canceled σ (taskList cb arr)
    (depA0 R E (taskList cb arr).length)
    ((taskList cb arr).drop (min W (taskList cb arr).length)) 0
    (depPre arr cb W).1 hc0 hm0 ha0 (by rw [hcur0])
    (fun b hb => hthr b (List.drop_subset _ _ hb))
  have hcore := @engLoop_coreInv _ _ _ (depPolicy R E) _ canceled
    σ ((taskList cb arr).drop (min W (taskList cb arr).length)) 0
    (depPre arr cb W).1 hc0
  have heq : (engLoop (depPolicy R E) canceled σ
      ((taskList cb arr).drop (min W (taskList cb arr).length)) 0
      (depPre arr cb W).1).2 = (depRun arr cb canceled W σ).2 := rfl
  rw [heq] at hcore
  -- the admitted index is below the final currentIndex
  have hicur : i < (depRun arr cb canceled W σ).2.cur := by
    have h1 : i ∈ startsOf (depRun arr cb canceled W σ).2.trace :=
      mem_startsOf.mpr hadm
    rw [hcore.starts_eq] at h1
    simpa using h1
  -- the final active set is empty, so the admitted index settled
  have hfin : (depRun arr cb canceled W σ).2.active = [] := by
    rcases Nat.eq_zero_or_pos (depPre arr cb W).1.active.length with hz | hp
    · -- the pre-fill admitted nothing; the loop exits at once with cur = 0
      have hempty : (depPre arr cb W).1.active = [] :=
        List.eq_nil_of_length_eq_zero hz
      have hthis : (depRun arr cb canceled W σ) = (false, (depPre arr cb W).1) := by
        simp only [depRun]
        rw [engLoop]
        simp [hempty]
      rw [hthis] at hicur
      rw [hcur0] at hicur
      omega
    · have hne : (depPre arr cb W).1.active.isEmpty = false := by
        cases hl : (depPre arr cb W).1.active with
        | nil => rw [hl] at hp; simp at hp
        | cons x l => simp [hl]
      rw [← heq]
      exact hspec.2.2.2 (hspec.2.2.1 hne)
  have hsettled : ∃ o, Ev.settle i o ∈ (depRun arr cb canceled W σ).2.trace := by
    rcases hcore.covered i hicur with h | h
    · exact h
    · rw [hfin] at h
      simp at h
  obtain ⟨o, ho⟩ := hsettled
  have hoerr : o = .error e' := by
    have hset := hspec.1.set i o
    rw [heq] at hset
    obtain ⟨b, hb, -, hob⟩ := hset ho
    rw [hget] at hb
    injection hb with hb
    rw [hob, ← hb]
    rfl
  have hfe : (firstErr (depRun arr cb canceled W σ).2.trace).isSome := by
    apply firstErr_isSome_of_mem (i := i) (e := e')
    rw [← hoerr]
    exact ho
  have hrej : (depRun arr cb canceled W σ).2.acc.rejected =
      firstErr (depRun arr cb canceled W σ).2.trace := by
    have hacc := hspec.2.1
    rw [heq] at hacc
    rw [hacc, accOf_dep_rejected]
    simp [depA0, optOr]
  rcases hsome : firstErr (depRun arr cb canceled W σ).2.trace with - | e
  · rw [hsome] at hfe
    simp at hfe
  · refine ⟨e, rfl, ?_⟩
    have hr : (depRun arr cb canceled W σ).2.acc.rejected = some e := by
      rw [hrej, hsome]
    rw [hr]

/-- Claim C5, witness at a concrete input: the task of index 0 rejects with
9; the run rejects with the first observed failure. -/
theorem claim_c5_witness :
    ∃ e, firstErr (runDependently [5, 6]
        (fun a i => if i = 0 then CbRes.err 9 else CbRes.ok a :
          Nat → Nat → CbRes Nat Nat)
        (fun _ => false) 2 (fun _ => 0)).2.trace = some e ∧
      (runDependently [5, 6]
        (fun a i => if i = 0 then CbRes.err 9 else CbRes.ok a :
          Nat → Nat → CbRes Nat Nat)
        (fun _ => false) 2 (fun _ => 0)).1 = some (.error e) :=
  claim_c5_failfast_first_error Nat Nat Nat [5, 6]
    (fun a i => if i = 0 then CbRes.err 9 else CbRes.ok a)
    (fun _ => false) 2 (fun _ => 0) 0 9 (by decide) (by decide) (by decide)

/-- Claim C1 (amended): for the array-backed `runDependently`
(`src/src/index.ts`), the claim holds as stated — for every finite source
of length `N ≥ 1` and every work function whose tasks all succeed, the run
resolves to exactly `[f(a0), ..., f(a_{N-1})]` with position `i` holding
the result of the work item of index `i`, for every settle order `σ`.  The
iterator-backed variant (`src/unnamed/part_000`) does not satisfy this: it
discards the element pulled by the pre-fill loop's final lookahead when
`N > W` (so that element is missing and the sequence is shorter), and pads
the output to `threads` cells when `N < W` (see the counterexample). -/
theorem claim_c1_amended :
    ∀ (α R E : Type) (arr : List α) (f : α → Nat → R) (W : Nat)
      (σ : Nat → Nat),
      2 ≤ W → 1 ≤ arr.length →
      (runDependently (E := E) arr (fun a i => CbRes.ok (f a i))
        (fun _ => false) W σ).1 =
        some (.ok (arr.enum.map fun p => some (f p.2 p.1))) := by
  intro α R E arr f W σ hW hN
  set cb : α → Nat → CbRes R E := fun a i => CbRes.ok (f a i) with hcbdef
  have hthr : ∀ b ∈ taskList cb arr, b.isThr = false :=
    taskList_no_thr (fun a i => rfl)
  have hok : ∀ (i : Nat) (b : CbRes R E), (taskList cb arr)[i]? = some b →
      ∃ a, arr[i]? = some a ∧ b = .ok (f a i) := by
    intro i b hb
    rw [taskList_getElem] at hb
    rcases ha : arr[i]? with - | a
    · rw [ha] at hb; simp at hb
    · rw [ha] at hb
      simp [hcbdef] at hb
      exact ⟨a, rfl, hb.symm⟩
  obtain ⟨hc0, hm0, ha0, hcur0, hready0, hact0, hpre⟩ := depPre_spec arr cb W hthr
  rw [runDependently_eq arr cb (fun _ => false) W σ hpre]
  set N := (taskList cb arr).length with hNdef
  have hNarr : N = arr.length := taskList_length cb arr
  have hse : ∀ tr : List (Ev R E),
      (∀ i o, Ev.settle i o ∈ tr →
        ∃ b, (taskList cb arr)[i]? = some b ∧ b.isThr = false ∧
          o = toOutcome b) →
      (depPolicy R E).stopErr (accOf (depPolicy R E) (depA0 R E N) tr)
        = false := by
    intro tr htr
    have hnone : firstErr tr = none := by
      apply firstErr_eq_none
      intro i e hmem
      obtain ⟨b, hb, -, hob⟩ := htr i (.error e) hmem
      obtain ⟨a, -, rfl⟩ := hok i b hb
      simp [toOutcome] at hob
    show (accOf (depPolicy R E) (depA0 R E N) tr).rejected.isSome = false
    rw [accOf_dep_rejected, hnone]
    simp [depA0, optOr]
  have hne : (depPre arr cb W).1.active.isEmpty = false := by
    cases hl : (depPre arr cb W).1.active with
    | nil =>
      rw [hl] at hact0
      simp at hact0
      omega
    | cons x l => simp [hl]
  have hspec := @engLoop_spec _ _ _ (depPolicy R E) W
    (fun _ => false) σ (taskList cb arr)
    (depA0 R E N)
    ((taskList cb arr).drop (min W N)) 0
    (depPre arr cb W).1 hc0 hm0 ha0 (by rw [hcur0])
    (fun b hb => hthr b (List.drop_subset _ _ hb))
  have hcomplete := @engLoop_complete _ _ _ (depPolicy R E) W
    (fun _ => false) σ (taskList cb arr)
    (depA0 R E N) (fun n => rfl) hse
    ((taskList cb arr).drop (min W N)) 0
    (depPre arr cb W).1 hc0 hm0 ha0 (by rw [hcur0])
    (fun b hb => hthr b (List.drop_subset _ _ hb)) hne
  have hcore := @engLoop_coreInv _ _ _ (depPolicy R E) _
    (fun _ => false) σ
    ((taskList cb arr).drop (min W N)) 0 (depPre arr cb W).1 hc0
  have heq : (engLoop (depPolicy R E) (fun _ => false) σ
      ((taskList cb arr).drop (min W N)) 0 (depPre arr cb W).1).2 =
      (depRun arr cb (fun _ => false) W σ).2 := rfl
  rw [heq] at hcore
  have hcurN : (depRun arr cb (fun _ => false) W σ).2.cur = N := by
    rw [← heq, hcomplete, hcur0]
    simp [List.length_drop]
  have hf : (depRun arr cb (fun _ => false) W σ).1 = true := hspec.2.2.1 hne
  have hfin : (depRun arr cb (fun _ => false) W σ).2.active = [] := by
    rw [← heq]
    exact hspec.2.2.2 hf
  have hacc2 : (depRun arr cb (fun _ => false) W σ).2.acc =
      accOf (depPolicy R E) (depA0 R E N)
        (depRun arr cb (fun _ => false) W σ).2.trace := by
    have := hspec.2.1
    rw [heq] at this
    exact this
  have hmset : ∀ i o, Ev.settle i o ∈
      (depRun arr cb (fun _ => false) W σ).2.trace →
      ∃ b, (taskList cb arr)[i]? = some b ∧ b.isThr = false ∧
        o = toOutcome b := by
    have := hspec.1
    rw [heq] at this
    exact this.set
  have hrej : (depRun arr cb (fun _ => false) W σ).2.acc.rejected = none := by
    rw [hacc2, accOf_dep_rejected]
    have hnone : firstErr (depRun arr cb (fun _ => false) W σ).2.trace
        = none := by
      apply firstErr_eq_none
      intro i e hmem
      obtain ⟨b, hb, -, hob⟩ := hmset i (.error e) hmem
      obtain ⟨a, -, rfl⟩ := hok i b hb
      simp [toOutcome] at hob
    rw [hnone]
    simp [depA0, optOr]
  rw [hrej]
  rw [hf]
  have hout : (depRun arr cb (fun _ => false) W σ).2.acc.out =
      arr.enum.map fun p => some (f p.2 p.1) := by
    apply List.ext_getElem?
    intro j
    have hlen : (depRun arr cb (fun _ => false) W σ).2.acc.out.length = N := by
      rw [hacc2, accOf_dep_out_length]
      simp [depA0]
    rcases Nat.lt_or_ge j N with hj | hj
    · obtain ⟨b, hbj⟩ : ∃ b, (taskList cb arr)[j]? = some b := by
        rw [List.getElem?_eq_getElem (by omega)]
        exact ⟨_, rfl⟩
      obtain ⟨a, haj, rfl⟩ := hok j b hbj
      have hjsettled : ∃ o, Ev.settle j o ∈
          (depRun arr cb (fun _ => false) W σ).2.trace := by
        rcases hcore.covered j (by omega) with h | h
        · exact h
        · rw [hfin] at h
          simp at h
      obtain ⟨o, ho⟩ := hjsettled
      have hdet : ∀ o', Ev.settle j o' ∈
          (depRun arr cb (fun _ => false) W σ).2.trace →
          o' = Except.ok (f a j) := by
        intro o' ho'
        obtain ⟨b', hb', -, hob'⟩ := hmset j o' ho'
        rw [hbj] at hb'
        injection hb' with hb'
        rw [hob', ← hb']
        rfl
      have homem : Ev.settle j (Except.ok (f a j)) ∈
          (depRun arr cb (fun _ => false) W σ).2.trace := by
        rw [← hdet o ho]
        exact ho
      have hsetl := accOf_dep_out_settled
        (depRun arr cb (fun _ => false) W σ).2.trace (depA0 R E N)
        homem hdet (by simp [depA0]; omega)
      rw [hacc2, hsetl]
      rw [List.getElem?_map, List.getElem?_enum, haj]
      rfl
    · rw [List.getElem?_eq_none_iff.mpr (by omega),
        List.getElem?_eq_none_iff.mpr (by simp; omega)]
  rw [hout]
  rfl

/-- Claim C1, witness for the amended theorem at a concrete input. -/
theorem claim_c1_witness :
    (runDependently (E := Nat) [1, 2, 3]
      (fun a i => CbRes.ok ((fun a _ => 2 * a : Nat → Nat → Nat) a i))
      (fun _ => false) 2 (fun _ => 0)).1 =
      some (.ok [some 2, some 4, some 6]) := by
  have h := claim_c1_amended Nat Nat Nat [1, 2, 3] (fun a _ => 2 * a) 2
    (fun _ => 0) (by decide) (by decide)
  simpa using h

/-- Claim C2 (amended): for the array-backed `runIndependently`
(`src/src/index.ts`), the claim holds as stated: the run never rejects due
to task failures (for any cancellation predicate), and for a full run over
an `N ≥ 1`-element source the resolved bundle has `results`/`values`
populated at exactly the successful indices, `errors` containing exactly
the failed indices with their errors, and `ok` false iff some task failed.
The iterator-backed variant (`src/unnamed/part_000`) violates the bundle
characterization because its pre-fill loop discards the element pulled by
its final lookahead when `N > W` (see the counterexample). -/
theorem claim_c2_amended :
    ∀ (α R E : Type) (arr : List α) (cb : α → Nat → CbRes R E) (W : Nat)
      (σ : Nat → Nat),
      (∀ b ∈ taskList cb arr, b.isThr = false) →
      2 ≤ W →
      (∀ (canceled : Nat → Bool) (e : E),
        (runIndependently arr cb canceled W σ).1 ≠ some (.error e)) ∧
      (1 ≤ arr.length → ∃ b : IndepAcc R E,
        (runIndependently arr cb (fun _ => false) W σ).1 = some (.ok b) ∧
        b.results = (taskList cb arr).map (fun bb => some (toOutcome bb)) ∧
        b.values = (taskList cb arr).map
          (fun bb => match bb with | .ok r => some r | _ => none) ∧
        (∀ i e, ((i, e) ∈ b.errors ↔ (taskList cb arr)[i]? = some (.err e))) ∧
        b.ok = (taskList cb arr).all (fun bb => !bb.isErr)) := by
  intro α R E arr cb W σ hthr hW
  obtain ⟨hc0, hm0, ha0, hcur0, hready0, hact0, hpre⟩ := indepPre_spec arr cb W hthr
  set N := (taskList cb arr).length with hNdef
  have hNarr : N = arr.length := taskList_length cb arr
  constructor
  · intro canceled e
    rw [runIndependently_eq arr cb canceled W σ hpre]
    rcases hf : (indepRun arr cb canceled W σ).1 with - | -
    · simp
    · simp
  · intro hN
    rw [runIndependently_eq arr cb (fun _ => false) W σ hpre]
    have hne : (indepPre arr cb W).1.active.isEmpty = false := by
      cases hl : (indepPre arr cb W).1.active with
      | nil =>
        rw [hl] at hact0
        simp at hact0
        omega
      | cons x l => simp [hl]
    have hspec := @engLoop_spec _ _ _ (indepPolicy R E) W
      (fun _ => false) σ (taskList cb arr)
      (indepA0 R E N)
      ((taskList cb arr).drop (min W N)) 0
      (indepPre arr cb W).1 hc0 hm0 ha0 (by rw [hcur0])
      (fun b hb => hthr b (List.drop_subset _ _ hb))
    have hcomplete := @engLoop_complete _ _ _ (indepPolicy R E) W
      (fun _ => false) σ (taskList cb arr)
      (indepA0 R E N) (fun n => rfl) (fun tr _ => rfl)
      ((taskList cb arr).drop (min W N)) 0
      (indepPre arr cb W).1 hc0 hm0 ha0 (by rw [hcur0])
      (fun b hb => hthr b (List.drop_subset _ _ hb)) hne
    have hcore := @engLoop_coreInv _ _ _ (indepPolicy R E) _
      (fun _ => false) σ
      ((taskList cb arr).drop (min W N)) 0 (indepPre arr cb W).1 hc0
    have heq : (engLoop (indepPolicy R E) (fun _ => false) σ
        ((taskList cb arr).drop (min W N)) 0 (indepPre arr cb W).1).2 =
        (indepRun arr cb (fun _ => false) W σ).2 := rfl
    rw [heq] at hcore
    have hcurN : (indepRun arr cb (fun _ => false) W σ).2.cur = N := by
      rw [← heq, hcomplete, hcur0]
      simp [List.length_drop]
    have hf : (indepRun arr cb (fun _ => false) W σ).1 = true := hspec.2.2.1 hne
    have hfin : (indepRun arr cb (fun _ => false) W σ).2.active = [] := by
      rw [← heq]
      exact hspec.2.2.2 hf
    have hacc2 : (indepRun arr cb (fun _ => false) W σ).2.acc =
        accOf (indepPolicy R E) (indepA0 R E N)
          (indepRun arr cb (fun _ => false) W σ).2.trace := by
      have := hspec.2.1
      rw [heq] at this
      exact this
    have hmset : ∀ i o, Ev.settle i o ∈
        (indepRun arr cb (fun _ => false) W σ).2.trace →
        ∃ b, (taskList cb arr)[i]? = some b ∧ b.isThr = false ∧
          o = toOutcome b := by
      have := hspec.1
      rw [heq] at this
      exact this.set
    have hsettled : ∀ j, j < N → ∃ o, Ev.settle j o ∈
        (indepRun arr cb (fun _ => false) W σ).2.trace := by
      intro j hj
      rcases hcore.covered j (by omega) with h | h
      · exact h
      · rw [hfin] at h
        simp at h
    have hdet : ∀ j (b : CbRes R E), (taskList cb arr)[j]? = some b →
        ∀ o', Ev.settle j o' ∈
          (indepRun arr cb (fun _ => false) W σ).2.trace →
        o' = toOutcome b := by
      intro j b hbj o' ho'
      obtain ⟨b', hb', -, hob'⟩ := hmset j o' ho'
      rw [hbj] at hb'
      injection hb' with hb'
      rw [hob', hb']
    have hsetmem : ∀ j (b : CbRes R E), j < N →
        (taskList cb arr)[j]? = some b →
        Ev.settle j (toOutcome b) ∈
          (indepRun arr cb (fun _ => false) W σ).2.trace := by
      intro j b hj hbj
      obtain ⟨o, ho⟩ := hsettled j hj
      rw [← hdet j b hbj o ho]
      exact ho
    rw [hf]
    refine ⟨(indepRun arr cb (fun _ => false) W σ).2.acc, by simp, ?_, ?_, ?_, ?_⟩
    · -- results characterization
      apply List.ext_getElem?
      intro j
      have hlen : (indepRun arr cb (fun _ => false) W σ).2.acc.results.length
          = N := by
        rw [hacc2, (accOf_indep_lengths _ _).2]
        simp [indepA0]
      rcases Nat.lt_or_ge j N with hj | hj
      · obtain ⟨b, hbj⟩ : ∃ b, (taskList cb arr)[j]? = some b := by
          rw [List.getElem?_eq_getElem (by omega)]
          exact ⟨_, rfl⟩
        have hres := accOf_indep_settled
          (indepRun arr cb (fun _ => false) W σ).2.trace (indepA0 R E N)
          (hsetmem j b hj hbj) (hdet j b hbj)
          (by simp [indepA0]; omega) (by simp [indepA0]; omega)
        rw [hacc2, hres.1, List.getElem?_map, hbj]
        rfl
      · rw [List.getElem?_eq_none_iff.mpr (by omega),
          List.getElem?_eq_none_iff.mpr (by simp; omega)]
    · -- values characterization
      apply List.ext_getElem?
      intro j
      have hlen : (indepRun arr cb (fun _ => false) W σ).2.acc.values.length
          = N := by
        rw [hacc2, (accOf_indep_lengths _ _).1]
        simp [indepA0]
      rcases Nat.lt_or_ge j N with hj | hj
      · obtain ⟨b, hbj⟩ : ∃ b, (taskList cb arr)[j]? = some b := by
          rw [List.getElem?_eq_getElem (by omega)]
          exact ⟨_, rfl⟩
        have hres := accOf_indep_settled
          (indepRun arr cb (fun _ => false) W σ).2.trace (indepA0 R E N)
          (hsetmem j b hj hbj) (hdet j b hbj)
          (by simp [indepA0]; omega) (by simp [indepA0]; omega)
        cases b with
        | ok r =>
          rw [hacc2, hres.2.1 r rfl, List.getElem?_map, hbj]
          rfl
        | err e =>
          rw [hacc2, hres.2.2 e rfl, List.getElem?_map, hbj]
          simp [indepA0, List.getElem?_replicate, hj]
        | thr e =>
          have := hthr _ (List.getElem?_mem hbj)
          simp [CbRes.isThr] at this
      · rw [List.getElem?_eq_none_iff.mpr (by omega),
          List.getElem?_eq_none_iff.mpr (by simp; omega)]
    · -- errors characterization
      intro i e
      have herrs : (indepRun arr cb (fun _ => false) W σ).2.acc.errors =
          errsOf (indepRun arr cb (fun _ => false) W σ).2.trace := by
        rw [hacc2, accOf_indep_errors]
        simp [indepA0]
      rw [herrs, mem_errsOf]
      constructor
      · intro hmem
        obtain ⟨b, hb, hbthr, hob⟩ := hmset i (.error e) hmem
        cases b with
        | ok r => simp [toOutcome] at hob
        | err e2 =>
          simp [toOutcome] at hob
          rw [← hob] at hb
          exact hb
        | thr e2 => simp [CbRes.isThr] at hbthr
      · intro hb
        have hj : i < N := by
          obtain ⟨hlt, -⟩ := List.getElem?_eq_some.mp hb
          omega
        have := hsetmem i (.err e) hj hb
        simpa [toOutcome] using this
    · -- ok flag characterization
      have hok2 : (indepRun arr cb (fun _ => false) W σ).2.acc.ok =
          (errsOf (indepRun arr cb (fun _ => false) W σ).2.trace).isEmpty := by
        rw [hacc2, accOf_indep_ok]
        simp [indepA0]
      rw [hok2]
      have hiff : (errsOf (indepRun arr cb (fun _ => false) W σ).2.trace)
          = [] ↔ (∀ bb ∈ taskList cb arr, !bb.isErr = true) := by
        rw [List.eq_nil_iff_forall_not_mem]
        constructor
        · intro h bb hbb
          cases bb with
          | ok r => rfl
          | thr e =>
            have := hthr _ hbb
            simp [CbRes.isThr] at this
          | err e =>
            obtain ⟨j, hj⟩ := List.mem_iff_getElem?.mp hbb
            have hjN : j < N := by
              obtain ⟨hlt, -⟩ := List.getElem?_eq_some.mp hj
              omega
            have hmem := hsetmem j (.err e) hjN hj
            have : (j, e) ∈ errsOf
                (indepRun arr cb (fun _ => false) W σ).2.trace := by
              rw [mem_errsOf]
              simpa [toOutcome] using hmem
            exact absurd this (h _)
        · intro h p hp
          rcases p with ⟨j, e⟩
          rw [mem_errsOf] at hp
          obtain ⟨b, hb, hbthr, hob⟩ := hmset j (.error e) hp
          cases b with
          | ok r => simp [toOutcome] at hob
          | thr e2 => simp [CbRes.isThr] at hbthr
          | err e2 =>
            have := h _ (List.getElem?_mem hb)
            simp [CbRes.isErr] at this
      apply Bool.eq_iff_iff.mpr
      rw [List.isEmpty_iff, hiff]
      simp [List.all_eq_true]

/-- Witness for C2 at a concrete input: a three-element source whose work
function fails at the even indices, window 2. The run never rejects and
resolves to a bundle with `ok = false`. -/
theorem claim_c2_witness :
    (runIndependently [1, 2, 3]
        (fun (a : Nat) (i : Nat) =>
          if i % 2 = 0 then CbRes.err (E := Nat) (10 + i) else CbRes.ok (2 * a))
        (fun _ => false) 2 (fun _ => 0)).1 ≠ some (.error 5) ∧
    ∃ b : IndepAcc Nat Nat,
      (runIndependently [1, 2, 3]
        (fun (a : Nat) (i : Nat) =>
          if i % 2 = 0 then CbRes.err (E := Nat) (10 + i) else CbRes.ok (2 * a))
        (fun _ => false) 2 (fun _ => 0)).1 = some (.ok b) ∧ b.ok = false := by
  have h := claim_c2_amended Nat Nat Nat [1, 2, 3]
    (fun a i => if i % 2 = 0 then CbRes.err (10 + i) else CbRes.ok (2 * a))
    2 (fun _ => 0) (by decide) (by decide)
  refine ⟨h.1 (fun _ => false) 5, ?_⟩
  obtain ⟨b, hb, -, -, -, hok⟩ := h.2 (by decide)
  exact ⟨b, hb, by rw [hok]; decide⟩

lemma cutoffDepArray {α R E : Type} (src : List α) (g : α → Nat → R)
    (cb : α → Nat → CbRes R E) (K W : Nat) (canceled : Nat → Bool)
    (σ : Nat → Nat) (hok : ∀ a i, cb a i = CbRes.ok (g a i))
    (hK : 1 ≤ K) (hKc : ∀ n, K ≤ n → canceled n = true)
    (hW : 2 ≤ W) (hN : 1 ≤ src.length) :
    noStartAfter K (runDependently src cb canceled W σ).2.trace = true ∧
    (∀ i, Ev.start i ∈ (runDependently src cb canceled W σ).2.trace →
      ∃ o, Ev.settle i o ∈ (runDependently src cb canceled W σ).2.trace) ∧
    ∃ out : List (Option R),
      (runDependently src cb canceled W σ).1 = some (.ok out) ∧
      ∀ i a, Ev.start i ∈ (runDependently src cb canceled W σ).2.trace →
        src[i]? = some a → out[i]? = some (some (g a i)) := by
  have hthr : ∀ b ∈ taskList cb src, b.isThr = false :=
    taskList_no_thr (fun a i => by rw [hok]; rfl)
  obtain ⟨hc0, hm0, ha0, hcur0, hready0, hact0, hpre⟩ := depPre_spec src cb W hthr
  set N := (taskList cb src).length with hNdef
  have hNsrc : N = src.length := taskList_length cb src
  have hne : (depPre src cb W).1.active.isEmpty = false := by
    cases hl : (depPre src cb W).1.active with
    | nil =>
      rw [hl] at hact0
      simp at hact0
      omega
    | cons x l => simp [hl]
  have hspec := @engLoop_spec _ _ _ (depPolicy R E) W canceled σ
    (taskList cb src) (depA0 R E N)
    ((taskList cb src).drop (min W N)) 0
    (depPre src cb W).1 hc0 hm0 ha0 (by rw [hcur0])
    (fun b hb => hthr b (List.drop_subset _ _ hb))
  have hcore := @engLoop_coreInv _ _ _ (depPolicy R E) _ canceled σ
    ((taskList cb src).drop (min W N)) 0 (depPre src cb W).1 hc0
  have heq : (engLoop (depPolicy R E) canceled σ
      ((taskList cb src).drop (min W N)) 0 (depPre src cb W).1).2 =
      (depRun src cb canceled W σ).2 := rfl
  rw [heq] at hcore
  have hfl : (engLoop (depPolicy R E) canceled σ
      ((taskList cb src).drop (min W N)) 0 (depPre src cb W).1).1 =
      (depRun src cb canceled W σ).1 := rfl
  have hf : (depRun src cb canceled W σ).1 = true := by
    rw [← hfl]
    exact hspec.2.2.1 hne
  have hfin : (depRun src cb canceled W σ).2.active = [] := by
    rw [← heq]
    exact hspec.2.2.2 (by rw [hfl]; exact hf)
  have hacc : (depRun src cb canceled W σ).2.acc =
      accOf (depPolicy R E) (depA0 R E N)
        (depRun src cb canceled W σ).2.trace := by
    have h2 := hspec.2.1
    rw [heq] at h2
    exact h2
  have hmset : ∀ i o, Ev.settle i o ∈ (depRun src cb canceled W σ).2.trace →
      ∃ b, (taskList cb src)[i]? = some b ∧ b.isThr = false ∧
        o = toOutcome b := by
    have h2 := hspec.1
    rw [heq] at h2
    exact h2.set
  have hnsa0 : noStartAfter K (depPre src cb W).1.trace = true ∧
      cntS (depPre src cb W).1.trace = 0 :=
    @engPrefill_noStartAfter _ _ _ (depPolicy R E) K (by omega) _ _ rfl rfl
  have hnsaF : noStartAfter K (depRun src cb canceled W σ).2.trace = true := by
    have h2 := @engLoop_noStartAfter _ _ _ (depPolicy R E) W canceled σ K hKc
      ((taskList cb src).drop (min W N)) 0 (depPre src cb W).1 hc0 hnsa0.1
    rw [heq] at h2
    exact h2
  have hsettled : ∀ i, Ev.start i ∈ (depRun src cb canceled W σ).2.trace →
      ∃ o, Ev.settle i o ∈ (depRun src cb canceled W σ).2.trace := by
    intro i hi
    have hi2 : i ∈ startsOf (depRun src cb canceled W σ).2.trace :=
      mem_startsOf.mpr hi
    rw [hcore.starts_eq] at hi2
    rcases hcore.covered i (List.mem_range.mp hi2) with h | h
    · exact h
    · rw [hfin] at h
      simp at h
  have hnoerr : ∀ i e, Ev.settle i (.error e) ∉
      (depRun src cb canceled W σ).2.trace := by
    intro i e hmem
    obtain ⟨b, hb, -, hob⟩ := hmset i (.error e) hmem
    rw [taskList_getElem] at hb
    rcases hsome : src[i]? with - | a
    · rw [hsome] at hb
      simp at hb
    · rw [hsome] at hb
      simp [hok] at hb
      rw [← hb] at hob
      simp [toOutcome] at hob
  have hrej : (depRun src cb canceled W σ).2.acc.rejected = none := by
    rw [hacc, accOf_dep_rejected, firstErr_eq_none hnoerr]
    rfl
  have hres := runDependently_eq src cb canceled W σ hpre
  have hsnd : (match (depRun src cb canceled W σ).2.acc.rejected with
      | some e => (some (Except.error e), (depRun src cb canceled W σ).2)
      | none => (if (depRun src cb canceled W σ).1
                 then some (Except.ok (depRun src cb canceled W σ).2.acc.out)
                 else none,
                 (depRun src cb canceled W σ).2)).2
      = (depRun src cb canceled W σ).2 := by
    rcases (depRun src cb canceled W σ).2.acc.rejected with - | e2 <;> rfl
  refine ⟨?_, ?_, ?_⟩
  · rw [hres, hsnd]
    exact hnsaF
  · intro i hi
    rw [hres, hsnd] at hi ⊢
    exact hsettled i hi
  · refine ⟨(depRun src cb canceled W σ).2.acc.out, ?_, ?_⟩
    · rw [hres, hrej]
      simp [hf]
    · intro i a hstart hsome
      rw [hres, hsnd] at hstart
      have hb : (taskList cb src)[i]? = some (CbRes.ok (g a i)) := by
        rw [taskList_getElem, hsome]
        simp [hok]
      have hdet : ∀ o', Ev.settle i o' ∈ (depRun src cb canceled W σ).2.trace →
          o' = Except.ok (g a i) := by
        intro o' ho'
        obtain ⟨b, hb2, -, hob⟩ := hmset i o' ho'
        rw [hb] at hb2
        injection hb2 with hb2
        rw [hob, ← hb2]
        rfl
      obtain ⟨o, ho⟩ := hsettled i hstart
      have hoeq : o = Except.ok (g a i) := hdet o ho
      rw [hoeq] at ho
      have hi_len : i < (depA0 R E N).out.length := by
        obtain ⟨hlt, -⟩ := List.getElem?_eq_some.mp hb
        simp [depA0]
        omega
      have hout := accOf_dep_out_settled
        (depRun src cb canceled W σ).2.trace (depA0 R E N) ho hdet hi_len
      rw [hacc]
      exact hout

lemma cutoffIndepArray {α R E : Type} (src : List α) (cb : α → Nat → CbRes R E)
    (K W : Nat) (canceled : Nat → Bool) (σ : Nat → Nat)
    (hcb : ∀ a i, (cb a i).isThr = false)
    (hK : 1 ≤ K) (hKc : ∀ n, K ≤ n → canceled n = true)
    (hW : 2 ≤ W) (hN : 1 ≤ src.length) :
    noStartAfter K (runIndependently src cb canceled W σ).2.trace = true ∧
    (∀ i, Ev.start i ∈ (runIndependently src cb canceled W σ).2.trace →
      ∃ o, Ev.settle i o ∈ (runIndependently src cb canceled W σ).2.trace) ∧
    ∃ b : IndepAcc R E,
      (runIndependently src cb canceled W σ).1 = some (.ok b) ∧
      ∀ i o, Ev.settle i o ∈ (runIndependently src cb canceled W σ).2.trace →
        b.results[i]? = some (some o) := by
  have hthr : ∀ b ∈ taskList cb src, b.isThr = false := taskList_no_thr hcb
  obtain ⟨hc0, hm0, ha0, hcur0, hready0, hact0, hpre⟩ := indepPre_spec src cb W hthr
  set N := (taskList cb src).length with hNdef
  have hNsrc : N = src.length := taskList_length cb src
  have hne : (indepPre src cb W).1.active.isEmpty = false := by
    cases hl : (indepPre src cb W).1.active with
    | nil =>
      rw [hl] at hact0
      simp at hact0
      omega
    | cons x l => simp [hl]
  have hspec := @engLoop_spec _ _ _ (indepPolicy R E) W canceled σ
    (taskList cb src) (indepA0 R E N)
    ((taskList cb src).drop (min W N)) 0
    (indepPre src cb W).1 hc0 hm0 ha0 (by rw [hcur0])
    (fun b hb => hthr b (List.drop_subset _ _ hb))
  have hcore := @engLoop_coreInv _ _ _ (indepPolicy R E) _ canceled σ
    ((taskList cb src).drop (min W N)) 0 (indepPre src cb W).1 hc0
  have heq : (engLoop (indepPolicy R E) canceled σ
      ((taskList cb src).drop (min W N)) 0 (indepPre src cb W).1).2 =
      (indepRun src cb canceled W σ).2 := rfl
  rw [heq] at hcore
  have hfl : (engLoop (indepPolicy R E) canceled σ
      ((taskList cb src).drop (min W N)) 0 (indepPre src cb W).1).1 =
      (indepRun src cb canceled W σ).1 := rfl
  have hf : (indepRun src cb canceled W σ).1 = true := by
    rw [← hfl]
    exact hspec.2.2.1 hne
  have hfin : (indepRun src cb canceled W σ).2.active = [] := by
    rw [← heq]
    exact hspec.2.2.2 (by rw [hfl]; exact hf)
  have hacc : (indepRun src cb canceled W σ).2.acc =
      accOf (indepPolicy R E) (indepA0 R E N)
        (indepRun src cb canceled W σ).2.trace := by
    have h2 := hspec.2.1
    rw [heq] at h2
    exact h2
  have hmset : ∀ i o, Ev.settle i o ∈ (indepRun src cb canceled W σ).2.trace →
      ∃ b, (taskList cb src)[i]? = some b ∧ b.isThr = false ∧
        o = toOutcome b := by
    have h2 := hspec.1
    rw [heq] at h2
    exact h2.set
  have hnsa0 : noStartAfter K (indepPre src cb W).1.trace = true ∧
      cntS (indepPre src cb W).1.trace = 0 :=
    @engPrefill_noStartAfter _ _ _ (indepPolicy R E) K (by omega) _ _ rfl rfl
  have hnsaF : noStartAfter K (indepRun src cb canceled W σ).2.trace = true := by
    have h2 := @engLoop_noStartAfter _ _ _ (indepPolicy R E) W canceled σ K hKc
      ((taskList cb src).drop (min W N)) 0 (indepPre src cb W).1 hc0 hnsa0.1
    rw [heq] at h2
    exact h2
  have hsettled : ∀ i, Ev.start i ∈ (indepRun src cb canceled W σ).2.trace →
      ∃ o, Ev.settle i o ∈ (indepRun src cb canceled W σ).2.trace := by
    intro i hi
    have hi2 : i ∈ startsOf (indepRun src cb canceled W σ).2.trace :=
      mem_startsOf.mpr hi
    rw [hcore.starts_eq] at hi2
    rcases hcore.covered i (List.mem_range.mp hi2) with h | h
    · exact h
    · rw [hfin] at h
      simp at h
  have hres := runIndependently_eq src cb canceled W σ hpre
  refine ⟨?_, ?_, ?_⟩
  · rw [hres]
    exact hnsaF
  · intro i hi
    rw [hres] at hi ⊢
    exact hsettled i hi
  · refine ⟨(indepRun src cb canceled W σ).2.acc, ?_, ?_⟩
    · rw [hres]
      simp [hf]
    · intro i o hmem
      rw [hres] at hmem
      obtain ⟨b, hb, -, hob⟩ := hmset i o hmem
      have hdet : ∀ o', Ev.settle i o' ∈ (indepRun src cb canceled W σ).2.trace →
          o' = o := by
        intro o' ho'
        obtain ⟨b2, hb2, -, hob2⟩ := hmset i o' ho'
        rw [hb] at hb2
        injection hb2 with hb2
        rw [hob2, ← hb2, ← hob]
      have hiN : i < N := by
        obtain ⟨hlt, -⟩ := List.getElem?_eq_some.mp hb
        omega
      have hout := accOf_indep_settled
        (indepRun src cb canceled W σ).2.trace (indepA0 R E N) hmem hdet
        (by simp [indepA0]; omega) (by simp [indepA0]; omega)
      rw [hacc]
      exact hout.1

lemma cutoffDepIter {α R E : Type} (src : List α) (cb : α → Nat → CbRes R E)
    (K W : Nat) (canceled : Nat → Bool) (σ : Nat → Nat)
    (hcb : ∀ a i, (cb a i).isThr = false)
    (hK : 1 ≤ K) (hKc : ∀ n, K ≤ n → canceled n = true)
    (hW : 2 ≤ W) (hN : 1 ≤ src.length) :
    noStartAfter K (runDependentlyIter src cb canceled W σ).2.2.2.trace = true ∧
    (∀ i, Ev.start i ∈ (runDependentlyIter src cb canceled W σ).2.2.2.trace →
      ∃ o, Ev.settle i o ∈ (runDependentlyIter src cb canceled W σ).2.2.2.trace) ∧
    (runDependentlyIter src cb canceled W σ).1.isSome = true := by
  have hinv := @engPrefillIter_inv _ _ _ _ (depIterPolicy R E) cb W hcb src 0
    (engSt0 (depA0 R E W)) (coreInv_engSt0 _) rfl (Nat.zero_le _) rfl
  have hpc : CoreInv W (depIterPre src cb W).2.2.1 := hinv.1
  have hready : (depIterPre src cb W).2.2.1.ready = 0 := hinv.2.1
  have hthrown : (depIterPre src cb W).2.2.2 = none := hinv.2.2.1
  have hcur : (depIterPre src cb W).2.2.1.cur = min W (0 + src.length) :=
    hinv.2.2.2.1
  have hne : (depIterPre src cb W).2.2.1.active.isEmpty = false := by
    have h1 := hpc.count_eq
    rw [hready, hcur] at h1
    cases hl : (depIterPre src cb W).2.2.1.active with
    | nil =>
      rw [hl] at h1
      simp at h1
      omega
    | cons x l => simp [hl]
  have hexit0 := @engLoopIter_exit _ _ _ _ (depIterPolicy R E) cb canceled σ
    (depIterPre src cb W).1 (depIterPre src cb W).2.1 0 (depIterPre src cb W).2.2.1
  have hexit : (depIterRun src cb canceled W σ).1.isSome = true :=
    hexit0.2 hcb hne
  have hfin : (depIterRun src cb canceled W σ).2.2.2.active = [] :=
    hexit0.1 hexit
  have hcoreF : CoreInv W (depIterRun src cb canceled W σ).2.2.2 :=
    @engLoopIter_coreInv _ _ _ _ (depIterPolicy R E) cb _ canceled σ
      (depIterPre src cb W).1 (depIterPre src cb W).2.1 0
      (depIterPre src cb W).2.2.1 hpc
  have hnsa0 : noStartAfter K (depIterPre src cb W).2.2.1.trace = true ∧
      cntS (depIterPre src cb W).2.2.1.trace = 0 :=
    @engPrefillIter_noStartAfter _ _ _ _ (depIterPolicy R E) cb W K (by omega)
      src 0 (engSt0 (depA0 R E W)) rfl rfl
  have hnsaF : noStartAfter K
      (depIterRun src cb canceled W σ).2.2.2.trace = true :=
    @engLoopIter_noStartAfter _ _ _ _ (depIterPolicy R E) cb _ canceled σ K hKc
      (depIterPre src cb W).1 (depIterPre src cb W).2.1 0
      (depIterPre src cb W).2.2.1 hpc hnsa0.1
  have hsettled : ∀ i,
      Ev.start i ∈ (depIterRun src cb canceled W σ).2.2.2.trace →
      ∃ o, Ev.settle i o ∈ (depIterRun src cb canceled W σ).2.2.2.trace := by
    intro i hi
    have hi2 : i ∈ startsOf (depIterRun src cb canceled W σ).2.2.2.trace :=
      mem_startsOf.mpr hi
    rw [hcoreF.starts_eq] at hi2
    rcases hcoreF.covered i (List.mem_range.mp hi2) with h | h
    · exact h
    · rw [hfin] at h
      simp at h
  have hres := runDependentlyIter_eq src cb canceled W σ hthrown
  refine ⟨?_, ?_, ?_⟩
  · rw [hres]
    split <;> exact hnsaF
  · intro i hi
    rw [hres] at hi ⊢
    revert hi
    split <;> intro hi <;> exact hsettled i hi
  · rw [hres]
    split
    · simp
    · simp [hexit]

lemma cutoffIndepIter {α R E : Type} (src : List α) (cb : α → Nat → CbRes R E)
    (K W : Nat) (canceled : Nat → Bool) (σ : Nat → Nat)
    (hcb : ∀ a i, (cb a i).isThr = false)
    (hK : 1 ≤ K) (hKc : ∀ n, K ≤ n → canceled n = true)
    (hW : 2 ≤ W) (hN : 1 ≤ src.length) :
    noStartAfter K (runIndependentlyIter src cb canceled W σ).2.2.2.trace = true ∧
    (∀ i, Ev.start i ∈ (runIndependentlyIter src cb canceled W σ).2.2.2.trace →
      ∃ o, Ev.settle i o ∈ (runIndependentlyIter src cb canceled W σ).2.2.2.trace) ∧
    (runIndependentlyIter src cb canceled W σ).1.isSome = true := by
  have hinv := @engPrefillIter_inv _ _ _ _ (indepIterPolicy R E) cb W hcb src 0
    (engSt0 (indepA0 R E W)) (coreInv_engSt0 _) rfl (Nat.zero_le _) rfl
  have hpc : CoreInv W (indepIterPre src cb W).2.2.1 := hinv.1
  have hready : (indepIterPre src cb W).2.2.1.ready = 0 := hinv.2.1
  have hthrown : (indepIterPre src cb W).2.2.2 = none := hinv.2.2.1
  have hcur : (indepIterPre src cb W).2.2.1.cur = min W (0 + src.length) :=
    hinv.2.2.2.1
  have hne : (indepIterPre src cb W).2.2.1.active.isEmpty = false := by
    have h1 := hpc.count_eq
    rw [hready, hcur] at h1
    cases hl : (indepIterPre src cb W).2.2.1.active with
    | nil =>
      rw [hl] at h1
      simp at h1
      omega
    | cons x l => simp [hl]
  have hexit0 := @engLoopIter_exit _ _ _ _ (indepIterPolicy R E) cb canceled σ
    (indepIterPre src cb W).1 (indepIterPre src cb W).2.1 0
    (indepIterPre src cb W).2.2.1
  have hexit : (indepIterRun src cb canceled W σ).1.isSome = true :=
    hexit0.2 hcb hne
  have hfin : (indepIterRun src cb canceled W σ).2.2.2.active = [] :=
    hexit0.1 hexit
  have hcoreF : CoreInv W (indepIterRun src cb canceled W σ).2.2.2 :=
    @engLoopIter_coreInv _ _ _ _ (indepIterPolicy R E) cb _ canceled σ
      (indepIterPre src cb W).1 (indepIterPre src cb W).2.1 0
      (indepIterPre src cb W).2.2.1 hpc
  have hnsa0 : noStartAfter K (indepIterPre src cb W).2.2.1.trace = true ∧
      cntS (indepIterPre src cb W).2.2.1.trace = 0 :=
    @engPrefillIter_noStartAfter _ _ _ _ (indepIterPolicy R E) cb W K (by omega)
      src 0 (engSt0 (indepA0 R E W)) rfl rfl
  have hnsaF : noStartAfter K
      (indepIterRun src cb canceled W σ).2.2.2.trace = true :=
    @engLoopIter_noStartAfter _ _ _ _ (indepIterPolicy R E) cb _ canceled σ K hKc
      (indepIterPre src cb W).1 (indepIterPre src cb W).2.1 0
      (indepIterPre src cb W).2.2.1 hpc hnsa0.1
  have hsettled : ∀ i,
      Ev.start i ∈ (indepIterRun src cb canceled W σ).2.2.2.trace →
      ∃ o, Ev.settle i o ∈ (indepIterRun src cb canceled W σ).2.2.2.trace := by
    intro i hi
    have hi2 : i ∈ startsOf (indepIterRun src cb canceled W σ).2.2.2.trace :=
      mem_startsOf.mpr hi
    rw [hcoreF.starts_eq] at hi2
    rcases hcoreF.covered i (List.mem_range.mp hi2) with h | h
    · exact h
    · rw [hfin] at h
      simp at h
  have hres := runIndependentlyIter_eq src cb canceled W σ hthrown
  refine ⟨?_, ?_, ?_⟩
  · rw [hres]
    exact hnsaF
  · intro i hi
    rw [hres] at hi ⊢
    exact hsettled i hi
  · rw [hres]
    simp [hexit]

/-- Claim C7: when the cancellation predicate turns true once the settled
count reaches `K` (`1 ≤ K < N`), no work item is admitted after the `K`-th
settlement (`noStartAfter`), yet every already-admitted task is still driven
to settlement and folded in: the array FailFast run with an all-successful
work function resolves with every admitted item's value at its index, the
array CollectAll run resolves to a bundle whose `results` carry every
settlement, and both iterator-backed runs still settle their outer
promise.  This holds for every schedule `σ`. -/
theorem claim_c7_cancellation :
    ∀ (α R E : Type) (src : List α) (g : α → Nat → R)
      (cb : α → Nat → CbRes R E) (K W : Nat) (σ : Nat → Nat),
      (∀ a i, (cb a i).isThr = false) →
      1 ≤ K → K < src.length → 2 ≤ W →
      (noStartAfter K (runDependently src (fun a i => CbRes.ok (E := E) (g a i))
          (fun n => decide (K ≤ n)) W σ).2.trace = true ∧
       (∀ i, Ev.start i ∈ (runDependently src
            (fun a i => CbRes.ok (E := E) (g a i))
            (fun n => decide (K ≤ n)) W σ).2.trace →
         ∃ o, Ev.settle i o ∈ (runDependently src
            (fun a i => CbRes.ok (E := E) (g a i))
            (fun n => decide (K ≤ n)) W σ).2.trace) ∧
       ∃ out : List (Option R),
         (runDependently src (fun a i => CbRes.ok (E := E) (g a i))
            (fun n => decide (K ≤ n)) W σ).1 = some (.ok out) ∧
         ∀ i a, Ev.start i ∈ (runDependently src
              (fun a i => CbRes.ok (E := E) (g a i))
              (fun n => decide (K ≤ n)) W σ).2.trace →
           src[i]? = some a → out[i]? = some (some (g a i))) ∧
      (noStartAfter K (runIndependently src cb
          (fun n => decide (K ≤ n)) W σ).2.trace = true ∧
       (∀ i, Ev.start i ∈ (runIndependently src cb
            (fun n => decide (K ≤ n)) W σ).2.trace →
         ∃ o, Ev.settle i o ∈ (runIndependently src cb
            (fun n => decide (K ≤ n)) W σ).2.trace) ∧
       ∃ b : IndepAcc R E,
         (runIndependently src cb (fun n => decide (K ≤ n)) W σ).1 =
           some (.ok b) ∧
         ∀ i o, Ev.settle i o ∈ (runIndependently src cb
             (fun n => decide (K ≤ n)) W σ).2.trace →
           b.results[i]? = some (some o)) ∧
      (noStartAfter K (runDependentlyIter src cb
          (fun n => decide (K ≤ n)) W σ).2.2.2.trace = true ∧
       (∀ i, Ev.start i ∈ (runDependentlyIter src cb
            (fun n => decide (K ≤ n)) W σ).2.2.2.trace →
         ∃ o, Ev.settle i o ∈ (runDependentlyIter src cb
            (fun n => decide (K ≤ n)) W σ).2.2.2.trace) ∧
       (runDependentlyIter src cb (fun n => decide (K ≤ n)) W σ).1.isSome
         = true) ∧
      (noStartAfter K (runIndependentlyIter src cb
          (fun n => decide (K ≤ n)) W σ).2.2.2.trace = true ∧
       (∀ i, Ev.start i ∈ (runIndependentlyIter src cb
            (fun n => decide (K ≤ n)) W σ).2.2.2.trace →
         ∃ o, Ev.settle i o ∈ (runIndependentlyIter src cb
            (fun n => decide (K ≤ n)) W σ).2.2.2.trace) ∧
       (runIndependentlyIter src cb (fun n => decide (K ≤ n)) W σ).1.isSome
         = true) := by
  intro α R E src g cb K W σ hcb hK hKN hW
  have hN : 1 ≤ src.length := by omega
  have hKc : ∀ n, K ≤ n → (decide (K ≤ n) : Bool) = true :=
    fun n hn => decide_eq_true hn
  exact ⟨cutoffDepArray src g (fun a i => CbRes.ok (g a i)) K W
      (fun n => decide (K ≤ n)) σ (fun a i => rfl) hK hKc hW hN,
    cutoffIndepArray src cb K W (fun n => decide (K ≤ n)) σ hcb hK hKc hW hN,
    cutoffDepIter src cb K W (fun n => decide (K ≤ n)) σ hcb hK hKc hW hN,
    cutoffIndepIter src cb K W (fun n => decide (K ≤ n)) σ hcb hK hKc hW hN⟩

/-- Witness for C7: three elements, window 2, cancellation once one task has
settled; the FailFast run's trace admits nothing after the first
settlement. -/
theorem claim_c7_witness :
    1 ≤ 1 ∧ 1 < 3 ∧ 2 ≤ 2 ∧
    noStartAfter 1 (runDependently [10, 20, 30]
      (fun (a : Nat) (i : Nat) => CbRes.ok (E := Nat) (a + i))
      (fun n => decide (1 ≤ n)) 2 (fun _ => 0)).2.trace = true := by
  refine ⟨by decide, by decide, by decide, ?_⟩
  exact (claim_c7_cancellation Nat Nat Nat [10, 20, 30] (fun a i => a + i)
    (fun a i => CbRes.ok (a + i)) 1 2 (fun _ => 0) (fun a i => rfl)
    (by decide) (by decide) (by decide)).1.1

/-- Claim C8: cancellation is only consulted at settlement boundaries, so
even a predicate that is true from the very start does not prevent the
pre-fill: all four entry points admit exactly the work items
`0, ..., min W N - 1` (the full pre-fill wave) and still settle their
outer promise. -/
theorem claim_c8_prefill_despite_cancellation :
    ∀ (α R E : Type) (src : List α) (cb : α → Nat → CbRes R E) (W : Nat)
      (σ : Nat → Nat),
      (∀ a i, (cb a i).isThr = false) → 2 ≤ W → 1 ≤ src.length →
      (startsOf (runDependently src cb (fun _ => true) W σ).2.trace =
          List.range (min W src.length) ∧
        (runDependently src cb (fun _ => true) W σ).1.isSome = true) ∧
      (startsOf (runIndependently src cb (fun _ => true) W σ).2.trace =
          List.range (min W src.length) ∧
        (runIndependently src cb (fun _ => true) W σ).1.isSome = true) ∧
      (startsOf (runDependentlyIter src cb (fun _ => true) W σ).2.2.2.trace =
          List.range (min W src.length) ∧
        (runDependentlyIter src cb (fun _ => true) W σ).1.isSome = true) ∧
      (startsOf (runIndependentlyIter src cb (fun _ => true) W σ).2.2.2.trace =
          List.range (min W src.length) ∧
        (runIndependentlyIter src cb (fun _ => true) W σ).1.isSome = true) := by
  intro α R E src cb W σ hcb hW hN
  have hthr : ∀ b ∈ taskList cb src, b.isThr = false := taskList_no_thr hcb
  refine ⟨?_, ?_, ?_, ?_⟩
  · obtain ⟨hc0, hm0, ha0, hcur0, hready0, hact0, hpre⟩ :=
      depPre_spec src cb W hthr
    set N := (taskList cb src).length with hNdef
    have hNsrc : N = src.length := taskList_length cb src
    have hne : (depPre src cb W).1.active.isEmpty = false := by
      cases hl : (depPre src cb W).1.active with
      | nil =>
        rw [hl] at hact0
        simp at hact0
        omega
      | cons x l => simp [hl]
    have hca := @engLoop_cancel_all _ _ _ (depPolicy R E) (fun _ => true) σ
      (fun n => rfl) ((taskList cb src).drop (min W N)) 0
      (depPre src cb W).1 hne
    have hcore := @engLoop_coreInv _ _ _ (depPolicy R E) _ (fun _ => true) σ
      ((taskList cb src).drop (min W N)) 0 (depPre src cb W).1 hc0
    have heq : (engLoop (depPolicy R E) (fun _ => true) σ
        ((taskList cb src).drop (min W N)) 0 (depPre src cb W).1).2 =
        (depRun src cb (fun _ => true) W σ).2 := rfl
    rw [heq] at hcore
    have hf : (depRun src cb (fun _ => true) W σ).1 = true := hca.1
    have hcurF : (depRun src cb (fun _ => true) W σ).2.cur = min W N := by
      have h2 := hca.2.1
      rw [heq] at h2
      rw [h2, hcur0]
    have hstarts : startsOf (depRun src cb (fun _ => true) W σ).2.trace =
        List.range (min W src.length) := by
      rw [hcore.starts_eq, hcurF, hNsrc]
    have hres := runDependently_eq src cb (fun _ => true) W σ hpre
    refine ⟨?_, ?_⟩
    · rw [hres]
      split <;> exact hstarts
    · rw [hres]
      split
      · simp
      · simp [hf]
  · obtain ⟨hc0, hm0, ha0, hcur0, hready0, hact0, hpre⟩ :=
      indepPre_spec src cb W hthr
    set N := (taskList cb src).length with hNdef
    have hNsrc : N = src.length := taskList_length cb src
    have hne : (indepPre src cb W).1.active.isEmpty = false := by
      cases hl : (indepPre src cb W).1.active with
      | nil =>
        rw [hl] at hact0
        simp at hact0
        omega
      | cons x l => simp [hl]
    have hca := @engLoop_cancel_all _ _ _ (indepPolicy R E) (fun _ => true) σ
      (fun n => rfl) ((taskList cb src).drop (min W N)) 0
      (indepPre src cb W).1 hne
    have hcore := @engLoop_coreInv _ _ _ (indepPolicy R E) _ (fun _ => true) σ
      ((taskList cb src).drop (min W N)) 0 (indepPre src cb W).1 hc0
    have heq : (engLoop (indepPolicy R E) (fun _ => true) σ
        ((taskList cb src).drop (min W N)) 0 (indepPre src cb W).1).2 =
        (indepRun src cb (fun _ => true) W σ).2 := rfl
    rw [heq] at hcore
    have hf : (indepRun src cb (fun _ => true) W σ).1 = true := hca.1
    have hcurF : (indepRun src cb (fun _ => true) W σ).2.cur = min W N := by
      have h2 := hca.2.1
      rw [heq] at h2
      rw [h2, hcur0]
    have hstarts : startsOf (indepRun src cb (fun _ => true) W σ).2.trace =
        List.range (min W src.length) := by
      rw [hcore.starts_eq, hcurF, hNsrc]
    have hres := runIndependently_eq src cb (fun _ => true) W σ hpre
    refine ⟨?_, ?_⟩
    · rw [hres]
      exact hstarts
    · rw [hres]
      simp [hf]
  · have hinv := @engPrefillIter_inv _ _ _ _ (depIterPolicy R E) cb W hcb src 0
      (engSt0 (depA0 R E W)) (coreInv_engSt0 _) rfl (Nat.zero_le _) rfl
    have hpc : CoreInv W (depIterPre src cb W).2.2.1 := hinv.1
    have hready : (depIterPre src cb W).2.2.1.ready = 0 := hinv.2.1
    have hthrown : (depIterPre src cb W).2.2.2 = none := hinv.2.2.1
    have hcur : (depIterPre src cb W).2.2.1.cur = min W (0 + src.length) :=
      hinv.2.2.2.1
    have hne : (depIterPre src cb W).2.2.1.active.isEmpty = false := by
      have h1 := hpc.count_eq
      rw [hready, hcur] at h1
      cases hl : (depIterPre src cb W).2.2.1.active with
      | nil =>
        rw [hl] at h1
        simp at h1
        omega
      | cons x l => simp [hl]
    have hca := @engLoopIter_cancel_all _ _ _ _ (depIterPolicy R E) cb
      (fun _ => true) σ (fun n => rfl) (depIterPre src cb W).1
      (depIterPre src cb W).2.1 0 (depIterPre src cb W).2.2.1 hne
    have hcoreF : CoreInv W (depIterRun src cb (fun _ => true) W σ).2.2.2 :=
      @engLoopIter_coreInv _ _ _ _ (depIterPolicy R E) cb _ (fun _ => true) σ
        (depIterPre src cb W).1 (depIterPre src cb W).2.1 0
        (depIterPre src cb W).2.2.1 hpc
    have hexit : (depIterRun src cb (fun _ => true) W σ).1 = some true := hca.1
    have hcurX : (depIterRun src cb (fun _ => true) W σ).2.2.2.cur =
        (depIterPre src cb W).2.2.1.cur := hca.2.1
    have hcurF : (depIterRun src cb (fun _ => true) W σ).2.2.2.cur =
        min W (0 + src.length) := by
      rw [hcurX, hcur]
    have hstarts : startsOf
        (depIterRun src cb (fun _ => true) W σ).2.2.2.trace =
        List.range (min W src.length) := by
      rw [hcoreF.starts_eq, hcurF]
      simp
    have hres := runDependentlyIter_eq src cb (fun _ => true) W σ hthrown
    refine ⟨?_, ?_⟩
    · rw [hres]
      split <;> exact hstarts
    · rw [hres]
      split
      · simp
      · simp [hexit]
  · have hinv := @engPrefillIter_inv _ _ _ _ (indepIterPolicy R E) cb W hcb src 0
      (engSt0 (indepA0 R E W)) (coreInv_engSt0 _) rfl (Nat.zero_le _) rfl
    have hpc : CoreInv W (indepIterPre src cb W).2.2.1 := hinv.1
    have hready : (indepIterPre src cb W).2.2.1.ready = 0 := hinv.2.1
    have hthrown : (indepIterPre src cb W).2.2.2 = none := hinv.2.2.1
    have hcur : (indepIterPre src cb W).2.2.1.cur = min W (0 + src.length) :=
      hinv.2.2.2.1
    have hne : (indepIterPre src cb W).2.2.1.active.isEmpty = false := by
      have h1 := hpc.count_eq
      rw [hready, hcur] at h1
      cases hl : (indepIterPre src cb W).2.2.1.active with
      | nil =>
        rw [hl] at h1
        simp at h1
        omega
      | cons x l => simp [hl]
    have hca := @engLoopIter_cancel_all _ _ _ _ (indepIterPolicy R E) cb
      (fun _ => true) σ (fun n => rfl) (indepIterPre src cb W).1
      (indepIterPre src cb W).2.1 0 (indepIterPre src cb W).2.2.1 hne
    have hcoreF : CoreInv W (indepIterRun src cb (fun _ => true) W σ).2.2.2 :=
      @engLoopIter_coreInv _ _ _ _ (indepIterPolicy R E) cb _ (fun _ => true) σ
        (indepIterPre src cb W).1 (indepIterPre src cb W).2.1 0
        (indepIterPre src cb W).2.2.1 hpc
    have hexit : (indepIterRun src cb (fun _ => true) W σ).1 = some true :=
      hca.1
    have hcurX : (indepIterRun src cb (fun _ => true) W σ).2.2.2.cur =
        (indepIterPre src cb W).2.2.1.cur := hca.2.1
    have hcurF : (indepIterRun src cb (fun _ => true) W σ).2.2.2.cur =
        min W (0 + src.length) := by
      rw [hcurX, hcur]
    have hstarts : startsOf
        (indepIterRun src cb (fun _ => true) W σ).2.2.2.trace =
        List.range (min W src.length) := by
      rw [hcoreF.starts_eq, hcurF]
      simp
    have hres := runIndependentlyIter_eq src cb (fun _ => true) W σ hthrown
    refine ⟨?_, ?_⟩
    · rw [hres]
      exact hstarts
    · rw [hres]
      simp [hexit]

/-- Witness for C8: window 2 over a 3-element source with cancellation true
from the start; the iterator CollectAll run still admits items 0 and 1. -/
theorem claim_c8_witness :
    2 ≤ 2 ∧ 1 ≤ 3 ∧
    startsOf (runIndependentlyIter [4, 5, 6]
      (fun (a : Nat) (i : Nat) => CbRes.ok (E := Nat) (a * i))
      (fun _ => true) 2 (fun _ => 0)).2.2.2.trace = List.range 2 := by
  refine ⟨by decide, by decide, ?_⟩
  have h := claim_c8_prefill_despite_cancellation Nat Nat Nat [4, 5, 6]
    (fun a i => CbRes.ok (a * i)) 2 (fun _ => 0) (fun a i => rfl)
    (by decide) (by decide)
  simpa using h.2.2.2.1

/-- Claim C10 (amended): in the iterator-backed variant the engine does pull
from the source before evaluating the stop condition, but when a run stops
on cancellation (`exit = some true`) without having exhausted the source,
the number of consumed elements exceeds the number of admitted work items
(`cntA` of the trace) by exactly TWO, not one: the pre-fill loop's final
lookahead already discarded one element, and the cancel-stop pull discards
another. -/
theorem claim_c10_amended :
    ∀ (α R E : Type) (src : List α) (cb : α → Nat → CbRes R E)
      (canceled : Nat → Bool) (W : Nat) (σ : Nat → Nat),
      (∀ a i, (cb a i).isThr = false) →
      ((runDependentlyIter src cb canceled W σ).2.1 = some true →
        (runDependentlyIter src cb canceled W σ).2.2.1 < src.length →
        (runDependentlyIter src cb canceled W σ).2.2.1 =
          cntA (runDependentlyIter src cb canceled W σ).2.2.2.trace + 2) ∧
      ((runIndependentlyIter src cb canceled W σ).2.1 = some true →
        (runIndependentlyIter src cb canceled W σ).2.2.1 < src.length →
        (runIndependentlyIter src cb canceled W σ).2.2.1 =
          cntA (runIndependentlyIter src cb canceled W σ).2.2.2.trace + 2) := by
  intro α R E src cb canceled W σ hcb
  constructor
  · intro hex hlt
    have hinv := @engPrefillIter_inv _ _ _ _ (depIterPolicy R E) cb W hcb src 0
      (engSt0 (depA0 R E W)) (coreInv_engSt0 _) rfl (Nat.zero_le _) rfl
    have hpc : CoreInv W (depIterPre src cb W).2.2.1 := hinv.1
    have hthrown : (depIterPre src cb W).2.2.2 = none := hinv.2.2.1
    have hsum0 : (depIterPre src cb W).2.1 + (depIterPre src cb W).1.length =
        0 + src.length := hinv.2.2.2.2.1
    have hdisj : (depIterPre src cb W).2.1 =
        (depIterPre src cb W).2.2.1.cur + 1 ∨
        ((depIterPre src cb W).1 = [] ∧ (depIterPre src cb W).2.1 ≤
          (depIterPre src cb W).2.2.1.cur + 1) := hinv.2.2.2.2.2
    have hpos := @engLoopIter_pos _ _ _ _ (depIterPolicy R E) cb canceled σ
      (depIterPre src cb W).1 (depIterPre src cb W).2.1 0
      (depIterPre src cb W).2.2.1 hdisj
    have hcoreF : CoreInv W (depIterRun src cb canceled W σ).2.2.2 :=
      @engLoopIter_coreInv _ _ _ _ (depIterPolicy R E) cb _ canceled σ
        (depIterPre src cb W).1 (depIterPre src cb W).2.1 0
        (depIterPre src cb W).2.2.1 hpc
    have hres := runDependentlyIter_eq src cb canceled W σ hthrown
    have hsnd1 : (runDependentlyIter src cb canceled W σ).2.1 =
        (depIterRun src cb canceled W σ).1 := by
      rw [hres]
      split <;> rfl
    have hsnd2 : (runDependentlyIter src cb canceled W σ).2.2.1 =
        (depIterRun src cb canceled W σ).2.2.1 := by
      rw [hres]
      split <;> rfl
    have hsnd3 : (runDependentlyIter src cb canceled W σ).2.2.2 =
        (depIterRun src cb canceled W σ).2.2.2 := by
      rw [hres]
      split <;> rfl
    rw [hsnd1] at hex
    rw [hsnd2] at hlt ⊢
    rw [hsnd3]
    have hsome : (depIterRun src cb canceled W σ).1.isSome = true := by
      rw [hex]
      rfl
    have hsum : (depIterRun src cb canceled W σ).2.2.1 +
        (depIterRun src cb canceled W σ).2.1.length =
        (depIterPre src cb W).2.1 + (depIterPre src cb W).1.length := hpos.1
    have hne2 : (depIterRun src cb canceled W σ).2.1 ≠ [] := by
      intro hnil
      rw [hnil] at hsum
      simp at hsum
      omega
    have hq : (depIterRun src cb canceled W σ).2.2.1 =
        (depIterRun src cb canceled W σ).2.2.2.cur + 2 := hpos.2 hsome hne2
    rw [hq, hcoreF.cntA_eq]
  · intro hex hlt
    have hinv := @engPrefillIter_inv _ _ _ _ (indepIterPolicy R E) cb W hcb src 0
      (engSt0 (indepA0 R E W)) (coreInv_engSt0 _) rfl (Nat.zero_le _) rfl
    have hpc : CoreInv W (indepIterPre src cb W).2.2.1 := hinv.1
    have hthrown : (indepIterPre src cb W).2.2.2 = none := hinv.2.2.1
    have hsum0 : (indepIterPre src cb W).2.1 +
        (indepIterPre src cb W).1.length = 0 + src.length := hinv.2.2.2.2.1
    have hdisj : (indepIterPre src cb W).2.1 =
        (indepIterPre src cb W).2.2.1.cur + 1 ∨
        ((indepIterPre src cb W).1 = [] ∧ (indepIterPre src cb W).2.1 ≤
          (indepIterPre src cb W).2.2.1.cur + 1) := hinv.2.2.2.2.2
    have hpos := @engLoopIter_pos _ _ _ _ (indepIterPolicy R E) cb canceled σ
      (indepIterPre src cb W).1 (indepIterPre src cb W).2.1 0
      (indepIterPre src cb W).2.2.1 hdisj
    have hcoreF : CoreInv W (indepIterRun src cb canceled W σ).2.2.2 :=
      @engLoopIter_coreInv _ _ _ _ (indepIterPolicy R E) cb _ canceled σ
        (indepIterPre src cb W).1 (indepIterPre src cb W).2.1 0
        (indepIterPre src cb W).2.2.1 hpc
    have hres := runIndependentlyIter_eq src cb canceled W σ hthrown
    have hsnd1 : (runIndependentlyIter src cb canceled W σ).2.1 =
        (indepIterRun src cb canceled W σ).1 := by
      rw [hres]
    have hsnd2 : (runIndependentlyIter src cb canceled W σ).2.2.1 =
        (indepIterRun src cb canceled W σ).2.2.1 := by
      rw [hres]
    have hsnd3 : (runIndependentlyIter src cb canceled W σ).2.2.2 =
        (indepIterRun src cb canceled W σ).2.2.2 := by
      rw [hres]
    rw [hsnd1] at hex
    rw [hsnd2] at hlt ⊢
    rw [hsnd3]
    have hsome : (indepIterRun src cb canceled W σ).1.isSome = true := by
      rw [hex]
      rfl
    have hsum : (indepIterRun src cb canceled W σ).2.2.1 +
        (indepIterRun src cb canceled W σ).2.1.length =
        (indepIterPre src cb W).2.1 + (indepIterPre src cb W).1.length :=
      hpos.1
    have hne2 : (indepIterRun src cb canceled W σ).2.1 ≠ [] := by
      intro hnil
      rw [hnil] at hsum
      simp at hsum
      omega
    have hq : (indepIterRun src cb canceled W σ).2.2.1 =
        (indepIterRun src cb canceled W σ).2.2.2.cur + 2 := hpos.2 hsome hne2
    rw [hq, hcoreF.cntA_eq]

/-- Witness for C10 (amended): five elements, window 2, cancellation after
the first settlement; the run stops on cancellation having consumed 4
elements while only 2 work items were ever admitted: 4 = 2 + 2. -/
theorem claim_c10_witness :
    (runDependentlyIter [1, 2, 3, 4, 5]
        (fun (a : Nat) (i : Nat) => CbRes.ok (E := Nat) (2 * a))
        (fun n => decide (1 ≤ n)) 2 (fun _ => 0)).2.1 = some true ∧
    (runDependentlyIter [1, 2, 3, 4, 5]
        (fun (a : Nat) (i : Nat) => CbRes.ok (E := Nat) (2 * a))
        (fun n => decide (1 ≤ n)) 2 (fun _ => 0)).2.2.1 < 5 ∧
    (runDependentlyIter [1, 2, 3, 4, 5]
        (fun (a : Nat) (i : Nat) => CbRes.ok (E := Nat) (2 * a))
        (fun n => decide (1 ≤ n)) 2 (fun _ => 0)).2.2.1 =
      cntA (runDependentlyIter [1, 2, 3, 4, 5]
        (fun (a : Nat) (i : Nat) => CbRes.ok (E := Nat) (2 * a))
        (fun n => decide (1 ≤ n)) 2 (fun _ => 0)).2.2.2.trace + 2 := by
  refine ⟨by decide, by decide, ?_⟩
  exact (claim_c10_amended Nat Nat Nat [1, 2, 3, 4, 5]
    (fun a i => CbRes.ok (2 * a)) (fun n => decide (1 ≤ n)) 2 (fun _ => 0)
    (fun a i => rfl)).1 (by decide) (by decide)
